import Mathlib

/-!
# Endpoint restore (`pkg/endpoint/restore.go`)

A shallow embedding of the endpoint restore code: the directory partitioner
(`partitionEPDirNamesByRestoreStatus`), the state loader (`findEndpointState`),
the restore manager (`ReadEPsFromDirNames`), the snapshot conversion
(`toSerializedEndpoint` / `fromSerializedEndpoint`) and the identity restorer
(`Endpoint.restoreIdentity`).

Go strings and byte slices are lists of bytes. Go maps are association lists
without duplicate keys; the order in which `range` visits a map is not fixed by
the language, so it is an explicit argument (`ord`) of every function that
ranges over a map.
-/

namespace Restore

/-! ## Strings and byte slices -/

/-- One byte. -/
abbrev Byte := Fin 256

/-- A Go `string` or `[]byte`: a sequence of bytes. -/
abbrev GoString := List Byte

/-- The bytes of an ASCII literal. -/
def ascii (s : String) : GoString :=
  s.toList.map (fun c => Fin.ofNat c.toNat)

/-- Go `strings.HasSuffix(s, suffix)`:
`len(s) >= len(suffix) && s[len(s)-len(suffix):] == suffix`. -/
def hasSuffix (s suffix : GoString) : Bool :=
  decide (suffix.length ≤ s.length) && decide (s.drop (s.length - suffix.length) = suffix)

/-! ## Sets of strings (`map[string]struct{}`) -/

/-- Go `m[k] = struct{}{}` on a `map[string]struct{}` whose keys are listed in `m`. -/
def setInsert (m : List GoString) (k : GoString) : List GoString :=
  if k ∈ m then m else m ++ [k]

/-- The order in which a `range` statement visits the keys of a map. Go leaves it
unspecified; a valid order is a rearrangement of the keys. -/
def ValidOrder (ord : List GoString → List GoString) : Prop :=
  ∀ keys, (ord keys).Perm keys

/-! ## Directory partitioner -/

/-- The inner loop of `partitionEPDirNamesByRestoreStatus` over the two staging
suffixes, for one directory name. -/
def markIncomplete (dirNames : List GoString) (incompleteSuffixes : List GoString)
    (incompleteSet : List GoString) (epDirName : GoString) : List GoString :=
  incompleteSuffixes.foldl
    (fun acc suff =>
      if hasSuffix epDirName suff then
        if epDirName.take (epDirName.length - suff.length) ∈ dirNames then
          setInsert acc epDirName
        else acc
      else acc)
    incompleteSet

/-- Go `partitionEPDirNamesByRestoreStatus`. The constants `nextDirectorySuffix`
and `nextFailedDirectorySuffix` are declared outside this file and are arguments
here; `ord` is the iteration order of the final `range dirNames`. Returns
`(complete, incomplete)`. -/
def partitionEPDirNamesByRestoreStatus (ord : List GoString → List GoString)
    (nextDirectorySuffix nextFailedDirectorySuffix : GoString)
    (eptsDirNames : List GoString) : List GoString × List GoString :=
  let dirNames := eptsDirNames.foldl setInsert []
  let incompleteSuffixes := [nextDirectorySuffix, nextFailedDirectorySuffix]
  let incompleteSet := eptsDirNames.foldl (markIncomplete dirNames incompleteSuffixes) []
  (ord dirNames).foldl
    (fun (acc : List GoString × List GoString) epDirName =>
      if epDirName ∈ incompleteSet then (acc.1, acc.2 ++ [epDirName])
      else (acc.1 ++ [epDirName], acc.2))
    ([], [])

/-- A name is a leftover of an interrupted update: it ends with one of the two
staging suffixes and the name without that suffix is among `names`. -/
def IsLeftover (s1 s2 : GoString) (names : List GoString) (n : GoString) : Prop :=
  ∃ suff, (suff = s1 ∨ suff = s2) ∧ hasSuffix n suff = true ∧
    n.take (n.length - suff.length) ∈ names

/-- A value for `nextDirectorySuffix`, used in the worked examples. -/
def sampleNext : GoString := ascii "_next"

/-- A value for `nextFailedDirectorySuffix`, used in the worked examples. -/
def sampleNextFail : GoString := ascii "_next_fail"

/-! ## Errors -/

/-- The Go `error` values that occur in the restore code. -/
inductive GoError where
  /-- The sentinel `os.ErrNotExist`. -/
  | errNotExist
  /-- An error of the `os` package (`*fs.PathError`); `notExist` tells whether
  `errors.Is(err, os.ErrNotExist)` holds for it. -/
  | pathError (notExist : Bool) (code : Nat)
  /-- The sentinel `io.EOF`. -/
  | eof
  /-- Go `fmt.Errorf("invalid format %q. Should contain a single ':'", line)`. -/
  | invalidFormat (line : GoString)
  /-- A `base64.CorruptInputError` (the offset is not tracked). -/
  | corruptInput
  /-- The sentinel `ErrNotAlive`. -/
  | errNotAlive
  /-- Any other error, named by a code. -/
  | other (code : Nat)
  deriving DecidableEq

/-- Equality of Go results `(value, error)` is decidable. -/
instance instDecidableEqExcept {ε α : Type} [DecidableEq ε] [DecidableEq α] :
    DecidableEq (Except ε α) := fun a b =>
  match a, b with
  | .ok x, .ok y => if h : x = y then isTrue (by rw [h]) else isFalse (by intro h2; cases h2; exact h rfl)
  | .error x, .error y =>
    if h : x = y then isTrue (by rw [h]) else isFalse (by intro h2; cases h2; exact h rfl)
  | .ok _, .error _ => isFalse (by intro h; cases h)
  | .error _, .ok _ => isFalse (by intro h; cases h)

/-- Go `errors.Is(err, os.ErrNotExist)`. -/
def errorsIsNotExist : GoError → Bool
  | .errNotExist => true
  | .pathError notExist _ => notExist
  | _ => false

/-- Go `errors.Is(err, io.EOF)`. -/
def errorsIsEOF : GoError → Bool
  | .eof => true
  | _ => false

/-! ## Operating system interface -/

/-- The calls into the Go standard library that touch storage, over a state of
the world `σ`. `openFile` gives the bytes the opened file delivers and the error
that ends the stream (`io.EOF` for a file read to its end). -/
structure OS (σ : Type) where
  /-- Go `filepath.Join` of two elements. -/
  join : GoString → GoString → GoString
  /-- Go `os.ReadFile`. -/
  readFile : σ → GoString → Except GoError GoString
  /-- Go `os.Open`, with what reading the file then yields. -/
  openFile : σ → GoString → Except GoError (GoString × GoError)
  /-- Go `os.RemoveAll`. -/
  removeAll : σ → GoString → σ × Option GoError

/-! ## Byte slice helpers -/

/-- Go `bytes.HasPrefix(s, p)`. -/
def hasPrefix : GoString → GoString → Bool
  | _, [] => true
  | [], _ :: _ => false
  | a :: s, b :: p => decide (a = b) && hasPrefix s p

/-- Go `bytes.Contains(s, sub)`. -/
def bytesContains : GoString → GoString → Bool
  | [], sub => hasPrefix [] sub
  | a :: s, sub => hasPrefix (a :: s) sub || bytesContains s sub

/-- Go `bytes.Split(s, []byte{sep})`. -/
def bytesSplit (sep : Byte) : GoString → List GoString
  | [] => [[]]
  | b :: bs =>
    if b = sep then [] :: bytesSplit sep bs
    else
      match bytesSplit sep bs with
      | [] => [[b]]
      | p :: ps => (b :: p) :: ps

/-- The successive results of `br.ReadBytes('\n')` on a stream delivering the
given bytes: the newline-terminated lines (newline included), and the trailing
bytes after the last newline, which `ReadBytes` returns together with the
stream's final error. -/
def readAllLines : GoString → List GoString × GoString
  | [] => ([], [])
  | b :: bs =>
    if b = 10 then ([b] :: (readAllLines bs).1, (readAllLines bs).2)
    else
      match (readAllLines bs).1 with
      | [] => ([], b :: (readAllLines bs).2)
      | l :: ls => ((b :: l) :: ls, (readAllLines bs).2)

/-! ## Standard base64 (`encoding/base64`, `StdEncoding`) -/

/-- The alphabet of `base64.StdEncoding`. -/
def encodeStdTable : GoString :=
  ascii "ABCDEFGHIJKLMNOPQRSTUVWXYZabcdefghijklmnopqrstuvwxyz0123456789+/"

/-- The character for a 6-bit value. -/
def encodeChar (i : Nat) : Byte := encodeStdTable.getD i 0

/-- The `decodeMap` of the encoding: the 6-bit value of an alphabet character. -/
def decodeMap (c : Byte) : Option Nat :=
  if encodeStdTable.indexOf c < 64 then some (encodeStdTable.indexOf c) else none

/-- The padding character `=`. -/
def padChar : Byte := 61

/-- Go `base64.StdEncoding.EncodeToString`. -/
def encodeStd : GoString → GoString
  | [] => []
  | [a] => [encodeChar (a.val / 4), encodeChar (a.val % 4 * 16), padChar, padChar]
  | [a, b] =>
    [encodeChar (a.val / 4), encodeChar (a.val % 4 * 16 + b.val / 16),
      encodeChar (b.val % 16 * 4), padChar]
  | a :: b :: c :: rest =>
    encodeChar (a.val / 4) :: encodeChar (a.val % 4 * 16 + b.val / 16) ::
      encodeChar (b.val % 16 * 4 + c.val / 64) :: encodeChar (c.val % 64) :: encodeStd rest

/-- The decoder skips `\r` and `\n` wherever they occur. -/
def stripNewlines (s : GoString) : GoString :=
  s.filter (fun c => !(decide (c = 10) || decide (c = 13)))

/-- Decoding of the four-character quanta of a newline-free input: a quantum of
four alphabet characters gives three bytes; the last quantum may end in `=` (two
bytes) or `==` (one byte); anything else is corrupt input. -/
def decodeQuanta : GoString → Except GoError GoString
  | [] => .ok []
  | a :: b :: c :: d :: rest =>
    match decodeMap a, decodeMap b with
    | some x, some y =>
      match decodeMap c, decodeMap d with
      | some z, some w =>
        match decodeQuanta rest with
        | .ok out =>
          .ok (Fin.ofNat (x * 4 + y / 16) :: Fin.ofNat (y % 16 * 16 + z / 4) ::
            Fin.ofNat (z % 4 * 64 + w) :: out)
        | .error e => .error e
      | some z, none =>
        if d = padChar ∧ rest = [] then
          .ok [Fin.ofNat (x * 4 + y / 16), Fin.ofNat (y % 16 * 16 + z / 4)]
        else .error .corruptInput
      | none, _ =>
        if c = padChar ∧ d = padChar ∧ rest = [] then .ok [Fin.ofNat (x * 4 + y / 16)]
        else .error .corruptInput
    | _, _ => .error .corruptInput
  | _ => .error .corruptInput

/-- Go `base64.StdEncoding.AppendDecode(nil, src)`; on an error the partially
decoded bytes are dropped. -/
def appendDecode (src : GoString) : Except GoError GoString :=
  decodeQuanta (stripNewlines src)

/-! ## State loader -/

/-- The `for` loop of `findEndpointState` over the results of `ReadBytes`: the
first newline-terminated line containing the marker, or the error returned when
the stream ends first. -/
def scanHeader (ciliumCHeaderPrefix : GoString) (endErr : GoError) :
    List GoString → Except GoError GoString
  | [] => if errorsIsEOF endErr then .error .errNotExist else .error endErr
  | b :: rest =>
    if bytesContains b ciliumCHeaderPrefix then .ok b
    else scanHeader ciliumCHeaderPrefix endErr rest

/-- Go `findEndpointState`. The constants `common.EndpointStateFileName`,
`common.CHeaderFileName` and `ciliumCHeaderPrefix` are declared outside this file
and are arguments here. -/
def findEndpointState {σ : Type} (os : OS σ) (w : σ)
    (EndpointStateFileName CHeaderFileName ciliumCHeaderPrefix : GoString)
    (dir : GoString) : Except GoError GoString :=
  match os.readFile w (os.join dir EndpointStateFileName) with
  | .ok state => .ok state
  | .error err =>
    if !errorsIsNotExist err then .error err
    else
      match os.openFile w (os.join dir CHeaderFileName) with
      | .error err => .error err
      | .ok (content, endErr) =>
        match scanHeader ciliumCHeaderPrefix endErr (readAllLines content).1 with
        | .error err => .error err
        | .ok line =>
          let epSlice := bytesSplit 58 line
          if epSlice.length ≠ 2 then .error (.invalidFormat line)
          else appendDecode (epSlice.getD 1 [])

/-! ## A small file system for the worked examples -/

/-- A file system with a working directory and regular files under absolute paths. -/
structure TestFS where
  /-- The working directory of the process. -/
  cwd : GoString
  /-- The regular files: absolute path and content. -/
  files : List (GoString × GoString)
  deriving DecidableEq

/-- Joining two path elements with a slash (no further cleaning). -/
def testJoin (a b : GoString) : GoString :=
  if a = [] then b else if b = [] then a else a ++ 47 :: b

/-- A relative path is resolved against the working directory. -/
def TestFS.resolve (fs : TestFS) (p : GoString) : GoString :=
  if p.head? = some 47 then p else testJoin fs.cwd p

/-- Reading a file that is not there gives a not-exist path error. -/
def TestFS.readFile (fs : TestFS) (p : GoString) : Except GoError GoString :=
  match fs.files.lookup (fs.resolve p) with
  | some c => .ok c
  | none => .error (.pathError true 2)

/-- Removing a path removes the file of that name and everything below it. -/
def TestFS.removeAll (fs : TestFS) (p : GoString) : TestFS × Option GoError :=
  (⟨fs.cwd, fs.files.filter
      (fun f => !(decide (f.1 = fs.resolve p) || hasPrefix f.1 (fs.resolve p ++ [47])))⟩, none)

/-- The operating system interface over `TestFS`. -/
def testOS : OS TestFS where
  join := testJoin
  readFile := TestFS.readFile
  openFile := fun fs p =>
    match fs.readFile p with
    | .ok c => .ok (c, .eof)
    | .error e => .error e
  removeAll := TestFS.removeAll

/-- A value for `common.EndpointStateFileName`, used in the worked examples. -/
def sampleStateFile : GoString := ascii "ep_config.json"

/-- A value for `common.CHeaderFileName`, used in the worked examples. -/
def sampleHeaderFile : GoString := ascii "ep_config.h"

/-- A value for `ciliumCHeaderPrefix`, used in the worked examples. -/
def samplePrefix : GoString := ascii "CILIUM_BASE64_"

/-! ## Endpoints and snapshots -/

/-- The types of other packages that an endpoint holds values of. -/
structure Ext where
  /-- Go `labels.OpLabels`. -/
  OpLabels : Type
  /-- Go `labels.Labels`. -/
  Labels : Type
  /-- Go `mac.MAC`. -/
  MAC : Type
  /-- Go `netip.Addr`. -/
  Addr : Type
  /-- The fields of `identity.Identity` other than its numeric id. -/
  IdentityData : Type
  /-- Go `option.IntOptions`. -/
  IntOptions : Type
  /-- Go `restore.DNSRules`. -/
  DNSRules : Type
  /-- Go `fqdn.DNSCache`. -/
  DNSCache : Type
  /-- Go `fqdn.DNSZombieMappings`. -/
  DNSZombieMappings : Type
  /-- Go `models.EndpointDatapathConfiguration`. -/
  DatapathConfiguration : Type
  /-- Go `any`, the values of the properties map. -/
  Any : Type
  /-- Go `time.Time`. -/
  Time : Type
  /-- Go `chan struct{}`. -/
  Chan : Type

/-- Go `identity.Identity`: the numeric id and the rest. -/
structure Identity (X : Ext) where
  /-- The numeric security identity. -/
  ID : Nat
  /-- Labels and the other fields. -/
  data : X.IdentityData

/-- The lifecycle state of an endpoint. -/
inductive State where
  /-- Go `StateRestoring`. -/
  | StateRestoring
  /-- Any other state, by name. -/
  | named (name : GoString)
  deriving DecidableEq

/-- Go `serializableEndpoint`. A pointer is an `Option` (`none` is `nil`), and so
is the `Properties` map (`none` is the nil map). -/
structure serializableEndpoint (X : Ext) where
  ID : Nat
  ContainerName : GoString
  ContainerID : GoString
  DockerNetworkID : GoString
  DockerEndpointID : GoString
  IfName : GoString
  IfIndex : Int
  ParentIfIndex : Int
  ContainerIfName : GoString
  DisableLegacyIdentifiers : Bool
  Labels : X.OpLabels
  LXCMAC : X.MAC
  IPv6 : X.Addr
  IPv6IPAMPool : GoString
  IPv4 : X.Addr
  IPv4IPAMPool : GoString
  NodeMAC : X.MAC
  SecurityIdentity : Option (Identity X)
  Options : Option X.IntOptions
  DNSRules : X.DNSRules
  DNSRulesV2 : X.DNSRules
  DNSHistory : Option X.DNSCache
  DNSZombies : Option X.DNSZombieMappings
  K8sPodName : GoString
  K8sNamespace : GoString
  K8sUID : GoString
  DatapathConfiguration : X.DatapathConfiguration
  CiliumEndpointUID : GoString
  Properties : Option (List (GoString × X.Any))
  NetnsCookie : Nat

/-- The fields of Go `Endpoint` that the restore code reads or writes.
`containerName` and `containerID` are atomic pointers to strings. -/
structure Endpoint (X : Ext) where
  ID : Nat
  createdAt : X.Time
  InitialEnvoyPolicyComputed : X.Chan
  containerName : Option GoString
  containerID : Option GoString
  dockerNetworkID : GoString
  dockerEndpointID : GoString
  ifName : GoString
  ifIndex : Int
  parentIfIndex : Int
  containerIfName : GoString
  disableLegacyIdentifiers : Bool
  labels : X.OpLabels
  mac : X.MAC
  IPv6 : X.Addr
  IPv6IPAMPool : GoString
  IPv4 : X.Addr
  IPv4IPAMPool : GoString
  nodeMAC : X.MAC
  SecurityIdentity : Option (Identity X)
  Options : Option X.IntOptions
  DNSRules : X.DNSRules
  DNSRulesV2 : X.DNSRules
  DNSHistory : Option X.DNSCache
  DNSZombies : Option X.DNSZombieMappings
  K8sPodName : GoString
  K8sNamespace : GoString
  K8sUID : GoString
  DatapathConfiguration : X.DatapathConfiguration
  ciliumEndpointUID : GoString
  properties : Option (List (GoString × X.Any))
  NetNsCookie : Nat
  isHost : Bool
  state : State

/-- The methods of `Endpoint` that the restore code calls and that are defined
in other files of the package. -/
structure Methods (X : Ext) where
  /-- Go `(*Endpoint).GetContainerName`. -/
  GetContainerName : Endpoint X → GoString
  /-- Go `(*Endpoint).GetContainerID`. -/
  GetContainerID : Endpoint X → GoString
  /-- Go `(*Endpoint).DirectoryPath`. -/
  DirectoryPath : Endpoint X → GoString
  /-- Go `(*Endpoint).IsHost`. -/
  IsHost : Endpoint X → Bool
  /-- Go `(*Endpoint).GetID`. -/
  GetID : Endpoint X → Nat

/-- Go `(*Endpoint).toSerializedEndpoint`. -/
def toSerializedEndpoint {X : Ext} (m : Methods X) (e : Endpoint X) : serializableEndpoint X where
  ID := e.ID
  ContainerName := m.GetContainerName e
  ContainerID := m.GetContainerID e
  DockerNetworkID := e.dockerNetworkID
  DockerEndpointID := e.dockerEndpointID
  IfName := e.ifName
  IfIndex := e.ifIndex
  ParentIfIndex := e.parentIfIndex
  ContainerIfName := e.containerIfName
  DisableLegacyIdentifiers := e.disableLegacyIdentifiers
  Labels := e.labels
  LXCMAC := e.mac
  IPv6 := e.IPv6
  IPv6IPAMPool := e.IPv6IPAMPool
  IPv4 := e.IPv4
  IPv4IPAMPool := e.IPv4IPAMPool
  NodeMAC := e.nodeMAC
  SecurityIdentity := e.SecurityIdentity
  Options := e.Options
  DNSRules := e.DNSRules
  DNSRulesV2 := e.DNSRulesV2
  DNSHistory := e.DNSHistory
  DNSZombies := e.DNSZombies
  K8sPodName := e.K8sPodName
  K8sNamespace := e.K8sNamespace
  K8sUID := e.K8sUID
  DatapathConfiguration := e.DatapathConfiguration
  CiliumEndpointUID := e.ciliumEndpointUID
  Properties := e.properties
  NetnsCookie := e.NetNsCookie

/-- Go `(*Endpoint).fromSerializedEndpoint`. `now` is the value of `time.Now()`
and `ch` the channel made by `make(chan struct{})`; the fields of `ep` that the
function does not assign are kept. -/
def fromSerializedEndpoint {X : Ext} (ep : Endpoint X) (now : X.Time) (ch : X.Chan)
    (r : serializableEndpoint X) : Endpoint X where
  ID := r.ID
  createdAt := now
  InitialEnvoyPolicyComputed := ch
  containerName := some r.ContainerName
  containerID := some r.ContainerID
  dockerNetworkID := r.DockerNetworkID
  dockerEndpointID := r.DockerEndpointID
  ifName := r.IfName
  ifIndex := r.IfIndex
  parentIfIndex := r.ParentIfIndex
  containerIfName := r.ContainerIfName
  disableLegacyIdentifiers := r.DisableLegacyIdentifiers
  labels := r.Labels
  mac := r.LXCMAC
  IPv6 := r.IPv6
  IPv6IPAMPool := r.IPv6IPAMPool
  IPv4 := r.IPv4
  IPv4IPAMPool := r.IPv4IPAMPool
  nodeMAC := r.NodeMAC
  SecurityIdentity := r.SecurityIdentity
  DNSRules := r.DNSRules
  DNSRulesV2 := r.DNSRulesV2
  DNSHistory := r.DNSHistory
  DNSZombies := r.DNSZombies
  K8sPodName := r.K8sPodName
  K8sNamespace := r.K8sNamespace
  K8sUID := r.K8sUID
  DatapathConfiguration := r.DatapathConfiguration
  Options := r.Options
  ciliumEndpointUID := r.CiliumEndpointUID
  properties :=
    match r.Properties with
    | some props => some props
    | none => some []
  NetNsCookie := r.NetnsCookie
  isHost := ep.isHost
  state := ep.state

/-- Go `(*Endpoint).UnmarshalJSON`. `unmarshal` is `json.Unmarshal` into the
snapshot `restoredEp`, whose `Labels`, `Options`, `DNSHistory` and `DNSZombies`
are preset (`defaults`) and whose other fields, `Properties` among them, start
at their zero values. -/
def UnmarshalJSON {X : Ext}
    (unmarshal : GoString → serializableEndpoint X → Except GoError (serializableEndpoint X))
    (defaults : serializableEndpoint X) (now : X.Time) (ch : X.Chan)
    (ep : Endpoint X) (raw : GoString) : Except GoError (Endpoint X) :=
  match unmarshal raw defaults with
  | .error err => .error err
  | .ok restoredEp => .ok (fromSerializedEndpoint ep now ch restoredEp)

/-! ## Restore manager -/

/-- Go `m[k]` with the comma-ok form, on a `map[uint16]*Endpoint`. -/
def mapLookup {V : Type} (m : List (Nat × V)) (k : Nat) : Option V :=
  match m with
  | [] => none
  | (k2, v) :: rest => if k2 = k then some v else mapLookup rest k

/-- Go `m[k] = v` on a `map[uint16]*Endpoint`. -/
def mapSet {V : Type} (m : List (Nat × V)) (k : Nat) (v : V) : List (Nat × V) :=
  match m with
  | [] => [(k, v)]
  | (k2, v2) :: rest => if k2 = k then (k, v) :: rest else (k2, v2) :: mapSet rest k v

/-- The lines written to the logger by `ReadEPsFromDirNames`. -/
inductive LogEntry where
  /-- Info: "Found incomplete restore directory %s. Removing it...". -/
  | foundIncomplete (fullDirName epDirName : GoString)
  /-- Warn: "Error while removing directory %s. Ignoring it...". -/
  | removeFailed (fullDirName : GoString) (err : GoError) (epDirName : GoString)
  /-- Warn: "Couldn't find state, ignoring endpoint". -/
  | stateNotFound (epDirName epDir : GoString) (err : GoError)
  /-- Warn: "Unable to parse the C header file". -/
  | parseFailed (epDirName epDir : GoString) (err : GoError)
  deriving DecidableEq

/-- What `ReadEPsFromDirNames` needs from outside the file: the operating
system, the endpoint parser, the endpoint methods and the constants. -/
structure Setup (σ : Type) (X : Ext) where
  os : OS σ
  /-- Go `parser.ParseEndpoint`. -/
  ParseEndpoint : GoString → Except GoError (Endpoint X)
  methods : Methods X
  /-- The iteration order of Go maps. -/
  ord : List GoString → List GoString
  nextDirectorySuffix : GoString
  nextFailedDirectorySuffix : GoString
  EndpointStateFileName : GoString
  CHeaderFileName : GoString
  ciliumCHeaderPrefix : GoString

/-- The first loop of `ReadEPsFromDirNames`, one round: the incomplete directory
is announced under its full name and `os.RemoveAll` is called on `epDirName`. -/
def removeIncompleteStep {σ : Type} {X : Ext} (s : Setup σ X) (basePath : GoString)
    (acc : σ × List LogEntry) (epDirName : GoString) : σ × List LogEntry :=
  let fullDirName := s.os.join basePath epDirName
  let log := acc.2 ++ [LogEntry.foundIncomplete fullDirName epDirName]
  match s.os.removeAll acc.1 epDirName with
  | (w, some err) => (w, log ++ [LogEntry.removeFailed fullDirName err epDirName])
  | (w, none) => (w, log)

/-- The variables of the second loop of `ReadEPsFromDirNames`: the map being
built, the host endpoint id last passed to `node.SetEndpointID`, and the log. -/
structure LoopState (X : Ext) where
  possibleEPs : List (Nat × Endpoint X)
  hostEndpointID : Option Nat
  log : List LogEntry

/-- The second loop of `ReadEPsFromDirNames`, one round. -/
def restoreStep {σ : Type} {X : Ext} (s : Setup σ X) (basePath : GoString) (w : σ)
    (acc : LoopState X) (epDirName : GoString) : LoopState X :=
  let epDir := s.os.join basePath epDirName
  match findEndpointState s.os w s.EndpointStateFileName s.CHeaderFileName
      s.ciliumCHeaderPrefix epDir with
  | .error err =>
    { acc with log := acc.log ++ [LogEntry.stateNotFound epDirName epDir err] }
  | .ok state =>
    match s.ParseEndpoint state with
    | .error err =>
      { acc with log := acc.log ++ [LogEntry.parseFailed epDirName epDir err] }
    | .ok ep =>
      let possibleEPs :=
        if (mapLookup acc.possibleEPs ep.ID).isSome then
          if hasSuffix (s.methods.DirectoryPath ep) epDirName then
            mapSet acc.possibleEPs ep.ID ep
          else acc.possibleEPs
        else mapSet acc.possibleEPs ep.ID ep
      let hostEndpointID :=
        if s.methods.IsHost ep then some (s.methods.GetID ep) else acc.hostEndpointID
      { possibleEPs := possibleEPs, hostEndpointID := hostEndpointID, log := acc.log }

/-- What `ReadEPsFromDirNames` returns and leaves behind. -/
structure ReadResult (σ : Type) (X : Ext) where
  /-- The returned map. -/
  possibleEPs : List (Nat × Endpoint X)
  /-- The state of the world after the call. -/
  world : σ
  /-- The host endpoint id published through `node.SetEndpointID`, if any. -/
  hostEndpointID : Option Nat
  /-- The log lines, in order. -/
  log : List LogEntry

/-- Go `ReadEPsFromDirNames`. -/
def ReadEPsFromDirNames {σ : Type} {X : Ext} (s : Setup σ X) (w : σ) (basePath : GoString)
    (eptsDirNames : List GoString) : ReadResult σ X :=
  let parts := partitionEPDirNamesByRestoreStatus s.ord s.nextDirectorySuffix
    s.nextFailedDirectorySuffix eptsDirNames
  let cleaned := parts.2.foldl (removeIncompleteStep s basePath) (w, [])
  let final := parts.1.foldl (restoreStep s basePath cleaned.1)
    { possibleEPs := [], hostEndpointID := none, log := cleaned.2 }
  { possibleEPs := final.possibleEPs, world := cleaned.1,
    hostEndpointID := final.hostEndpointID, log := final.log }

/-- The endpoint a directory yields: its state found and parsed, or nothing. -/
def loadEndpoint {σ : Type} {X : Ext} (s : Setup σ X) (basePath : GoString) (w : σ)
    (epDirName : GoString) : Option (Endpoint X) :=
  match findEndpointState s.os w s.EndpointStateFileName s.CHeaderFileName
      s.ciliumCHeaderPrefix (s.os.join basePath epDirName) with
  | .error _ => none
  | .ok state =>
    match s.ParseEndpoint state with
    | .error _ => none
    | .ok ep => some ep

/-! ## Worked-example setup -/

/-- External types for the worked examples: each is a number. -/
def testExt : Ext where
  OpLabels := Nat
  Labels := Nat
  MAC := Nat
  Addr := Nat
  IdentityData := Nat
  IntOptions := Nat
  DNSRules := Nat
  DNSCache := Nat
  DNSZombieMappings := Nat
  DatapathConfiguration := Nat
  Any := Nat
  Time := Nat
  Chan := Nat

/-- An endpoint with the given id and interface name, everything else zero. -/
def testEndpoint (id : Nat) (ifName : GoString) : Endpoint testExt where
  ID := id
  createdAt := (0 : Nat)
  InitialEnvoyPolicyComputed := (0 : Nat)
  containerName := none
  containerID := none
  dockerNetworkID := []
  dockerEndpointID := []
  ifName := ifName
  ifIndex := 0
  parentIfIndex := 0
  containerIfName := []
  disableLegacyIdentifiers := false
  labels := (0 : Nat)
  mac := (0 : Nat)
  IPv6 := (0 : Nat)
  IPv6IPAMPool := []
  IPv4 := (0 : Nat)
  IPv4IPAMPool := []
  nodeMAC := (0 : Nat)
  SecurityIdentity := none
  Options := none
  DNSRules := (0 : Nat)
  DNSRulesV2 := (0 : Nat)
  DNSHistory := none
  DNSZombies := none
  K8sPodName := []
  K8sNamespace := []
  K8sUID := []
  DatapathConfiguration := (0 : Nat)
  ciliumEndpointUID := []
  properties := none
  NetNsCookie := 0
  isHost := false
  state := State.named []

/-- Endpoint methods for the worked examples: the directory path is the state
directory `/s` joined with the decimal id (one digit). -/
def testMethods : Methods testExt where
  GetContainerName := fun e => e.containerName.getD []
  GetContainerID := fun e => e.containerID.getD []
  DirectoryPath := fun e => ascii "/s/" ++ [Fin.ofNat (48 + e.ID)]
  IsHost := fun e => e.isHost
  GetID := fun e => e.ID

/-- A parser for the worked examples: the first byte of the state is the id as a
digit, the rest is the interface name; an empty state does not parse. -/
def testParse (state : GoString) : Except GoError (Endpoint testExt) :=
  match state with
  | [] => .error (.other 1)
  | d :: rest => .ok (testEndpoint (d.val - 48) rest)

/-- The setup of the worked examples. -/
def testSetup : Setup TestFS testExt where
  os := testOS
  ParseEndpoint := testParse
  methods := testMethods
  ord := id
  nextDirectorySuffix := sampleNext
  nextFailedDirectorySuffix := sampleNextFail
  EndpointStateFileName := sampleStateFile
  CHeaderFileName := sampleHeaderFile
  ciliumCHeaderPrefix := samplePrefix

/-- The id and interface name of every entry of a map, for comparison. -/
def summary (m : List (Nat × Endpoint testExt)) : List (Nat × Nat × GoString) :=
  m.map (fun p => (p.1, p.2.ID, p.2.ifName))

/-- The update of the map in one round of the second loop, for a directory that
yielded the endpoint `ep`. -/
def insertCandidate {X : Ext} (m : Methods X) (possibleEPs : List (Nat × Endpoint X))
    (epDirName : GoString) (ep : Endpoint X) : List (Nat × Endpoint X) :=
  if (mapLookup possibleEPs ep.ID).isSome then
    if hasSuffix (m.DirectoryPath ep) epDirName then mapSet possibleEPs ep.ID ep
    else possibleEPs
  else mapSet possibleEPs ep.ID ep

/-- The map built by the second loop over `dirs`, starting from `acc`. -/
def processMap {σ : Type} {X : Ext} (s : Setup σ X) (basePath : GoString) (w : σ)
    (dirs : List GoString) (acc : List (Nat × Endpoint X)) : List (Nat × Endpoint X) :=
  dirs.foldl
    (fun acc d =>
      match loadEndpoint s basePath w d with
      | none => acc
      | some ep => insertCandidate s.methods acc d ep)
    acc

/-! ## Identity restorer -/

/-- What a `select` over `e.aliveCtx.Done()` and a completion channel finds at the
moment it is resolved. -/
structure Wait (α : Type) where
  /-- The alive context has been cancelled. -/
  aliveDone : Bool
  /-- The controller has closed the completion channel, having produced this value. -/
  completed : Option α
  /-- The case the runtime picks when both are ready. -/
  pickAlive : Bool

/-- The case a `select` takes. -/
inductive Selected (α : Type) where
  /-- The case `<-e.aliveCtx.Done()`. -/
  | aliveDone
  /-- The case of the completion channel. -/
  | completed (a : α)

/-- Go `select` over the two channels: the ready case is taken, the runtime picks
when both are ready, and the statement blocks for ever when neither becomes
ready (`none`). -/
def goSelect {α : Type} (w : Wait α) : Option (Selected α) :=
  match w.aliveDone, w.completed with
  | true, none => some .aliveDone
  | false, some a => some (.completed a)
  | true, some a => some (if w.pickAlive then .aliveDone else .completed a)
  | false, none => none

/-- The names of the two controllers. -/
inductive ControllerName where
  /-- The name "restoring-ep-identity (%v)" with the endpoint id. -/
  | restoringEpIdentity (id : Nat)
  /-- The name "waiting-initial-global-identities-ep (%v)" with the endpoint id. -/
  | waitingInitialGlobalIdentities (id : Nat)
  deriving DecidableEq

/-- The calls `restoreIdentity` makes on the endpoint and on other packages, in
the order it makes them. -/
inductive Event (X : Ext) where
  /-- Go `e.rlockAlive()` returned nil: the read lock is held. -/
  | rlockAlive
  /-- Go `e.logDisconnectedMutexAction(err, ...)`. -/
  | logDisconnectedMutexAction (err : GoError)
  /-- Go `e.runlock()`. -/
  | runlock
  /-- Go `e.UpdateController(name, ...)`. -/
  | updateController (name : ControllerName)
  /-- Go `regenerator.WaitForFence(e.aliveCtx)`. -/
  | waitForFence
  /-- Go `e.lockAlive()` returned nil: the exclusive lock is held. -/
  | lockAlive
  /-- The warning "Endpoint to restore has been deleted". -/
  | logDeleted
  /-- Go `e.setState(state, ...)`. -/
  | setState (state : State)
  /-- The info line about the changed security identity. -/
  | logIdentityChanged (old new : Nat)
  /-- Go `time.Sleep(d)`. -/
  | sleep (d : Nat)
  /-- Go `e.SetIdentity(id, newEndpoint)`. -/
  | setIdentity (id : Identity X) (newEndpoint : Bool)
  /-- Go `e.unlock()`. -/
  | unlock

/-- The event is a change of the lifecycle state or of the identity. -/
def Event.commits {X : Ext} : Event X → Bool
  | .setState _ => true
  | .setIdentity _ _ => true
  | _ => false

/-- The event belongs to the locked commit: taking the exclusive lock, the grace
period sleep, setting the identity, releasing the lock. -/
def Event.inCommit {X : Ext} : Event X → Bool
  | .lockAlive => true
  | .sleep _ => true
  | .setIdentity _ _ => true
  | .unlock => true
  | _ => false

/-- What `restoreIdentity` gets from outside the file. -/
structure Collaborators (X : Ext) where
  /-- The result of `e.rlockAlive()`. -/
  rlockAlive : Endpoint X → Option GoError
  /-- Go `labelsfilter.Filter(e.labels.AllLabels())`, first result. -/
  filterLabels : X.OpLabels → X.Labels
  /-- What the first `select` finds; `completed` holds the identity that
  `AllocateIdentity` returned for the labels. -/
  allocateIdentity : X.Labels → Wait (Identity X)
  /-- Go `(*Identity).IsFixed`. -/
  IsFixed : Identity X → Bool
  /-- Go `(*Identity).IsWellKnown`. -/
  IsWellKnown : Identity X → Bool
  /-- What the second `select` finds. -/
  initialGlobalIdentities : Wait Unit
  /-- The result of `regenerator.WaitForFence(e.aliveCtx)`. -/
  WaitForFence : Option GoError
  /-- The result of `e.lockAlive()`. -/
  lockAlive : Endpoint X → Option GoError
  /-- Go `option.Config.IdentityChangeGracePeriod`. -/
  IdentityChangeGracePeriod : Nat

/-- Modelled from the spec: `(*Endpoint).setState`, defined in another file of the
package; it "transitions the endpoint's lifecycle state" to the given state. -/
def setState {X : Ext} (e : Endpoint X) (toState : State) : Endpoint X :=
  { e with state := toState }

/-- Modelled from the spec: `(*Endpoint).SetIdentity`, defined in another file of
the package; it "sets the new identity on the endpoint". -/
def SetIdentity {X : Ext} (e : Endpoint X) (id : Identity X) : Endpoint X :=
  { e with SecurityIdentity := some id }

/-- What a call of `restoreIdentity` that returns has done. -/
structure Outcome (X : Ext) where
  /-- The returned error (`none` is nil). -/
  err : Option GoError
  /-- The endpoint after the call. -/
  ep : Endpoint X
  /-- The calls made, in order. -/
  trace : List (Event X)

/-- Go `restoreIdentity` from `regenerator.WaitForFence` to the end, with the
allocated identity `id` and the calls made so far. -/
def restoreIdentityCommit {X : Ext} (c : Collaborators X) (e : Endpoint X) (id : Identity X)
    (trace : List (Event X)) : Outcome X :=
  match c.WaitForFence with
  | some err => { err := some err, ep := e, trace := trace ++ [.waitForFence] }
  | none =>
    match c.lockAlive e with
    | some err => { err := some err, ep := e, trace := trace ++ [.waitForFence, .logDeleted] }
    | none =>
      let e1 := setState e .StateRestoring
      let t1 := trace ++ [.waitForFence, .lockAlive, .setState .StateRestoring]
      let t2 :=
        match e1.SecurityIdentity with
        | some old =>
          if id.ID ≠ old.ID then
            t1 ++ [.logIdentityChanged old.ID id.ID, .sleep c.IdentityChangeGracePeriod]
          else t1
        | none => t1
      { err := none, ep := SetIdentity e1 id, trace := t2 ++ [.setIdentity id true, .unlock] }

/-- Go `(*Endpoint).restoreIdentity`. The result is `none` when a `select` blocks
for ever. -/
def restoreIdentity {X : Ext} (c : Collaborators X) (e : Endpoint X) : Option (Outcome X) :=
  match c.rlockAlive e with
  | some err => some { err := some err, ep := e, trace := [.logDisconnectedMutexAction err] }
  | none =>
    let l := c.filterLabels e.labels
    let t1 : List (Event X) :=
      [.rlockAlive, .runlock, .updateController (.restoringEpIdentity e.ID)]
    match goSelect (c.allocateIdentity l) with
    | none => none
    | some .aliveDone => some { err := some .errNotAlive, ep := e, trace := t1 }
    | some (.completed id) =>
      if !c.IsFixed id && !c.IsWellKnown id then
        let t2 := t1 ++ [.updateController (.waitingInitialGlobalIdentities e.ID)]
        match goSelect c.initialGlobalIdentities with
        | none => none
        | some .aliveDone => some { err := some .errNotAlive, ep := e, trace := t2 }
        | some (.completed _) => some (restoreIdentityCommit c e id t2)
      else some (restoreIdentityCommit c e id t1)

/-- Collaborators for the worked examples: every lock is granted, the fence is
open, the allocation gives the identity `alloc` and the grace period is 5. -/
def testCollaborators (alloc : Wait (Identity testExt)) : Collaborators testExt where
  rlockAlive := fun _ => none
  filterLabels := fun l => l
  allocateIdentity := fun _ => alloc
  IsFixed := fun id => decide (id.ID < 100)
  IsWellKnown := fun _ => false
  initialGlobalIdentities := { aliveDone := false, completed := some (), pickAlive := false }
  WaitForFence := none
  lockAlive := fun _ => none
  IdentityChangeGracePeriod := 5

/-! ## The state loader as the specification words it -/

/-- Everything after the first colon of a line, in the words of the
specification ("split the matched line on its first colon" and decode "the
remainder"); empty when the line has no colon. -/
def afterFirstColon : GoString → GoString
  | [] => []
  | b :: bs => if b = 58 then bs else afterFirstColon bs

/-- An operating system whose files cannot be read as expected: every
`os.ReadFile` fails with `readErr`, and every opened file delivers `content` and
then ends with `endErr`. -/
def faultyOS (readErr : GoError) (content : GoString) (endErr : GoError) : OS Unit where
  join := testJoin
  readFile := fun _ _ => .error readErr
  openFile := fun _ _ => .ok (content, endErr)
  removeAll := fun w _ => (w, none)

/-! ## Worked-example setup with two-digit endpoint ids -/

/-- Endpoint methods for the worked examples with two-digit ids: the directory
path is the state directory `/s` joined with the id written with two digits. -/
def decimalMethods : Methods testExt where
  GetContainerName := fun e => e.containerName.getD []
  GetContainerID := fun e => e.containerID.getD []
  DirectoryPath := fun e => ascii "/s/" ++ [Fin.ofNat (48 + e.ID / 10), Fin.ofNat (48 + e.ID % 10)]
  IsHost := fun e => e.isHost
  GetID := fun e => e.ID

/-- A parser for the worked examples with two-digit ids: the first two bytes of
the state are the id in decimal, the rest is the interface name; a shorter state
does not parse. -/
def decimalParse (state : GoString) : Except GoError (Endpoint testExt) :=
  match state with
  | d1 :: d2 :: rest => .ok (testEndpoint ((d1.val - 48) * 10 + (d2.val - 48)) rest)
  | _ => .error (.other 1)

/-- The setup of the worked examples with two-digit ids. -/
def decimalSetup : Setup TestFS testExt where
  os := testOS
  ParseEndpoint := decimalParse
  methods := decimalMethods
  ord := id
  nextDirectorySuffix := sampleNext
  nextFailedDirectorySuffix := sampleNextFail
  EndpointStateFileName := sampleStateFile
  CHeaderFileName := sampleHeaderFile
  ciliumCHeaderPrefix := samplePrefix

/-! # Theorems -/

/-! ## Theorems: directory partitioner -/

theorem mem_setInsert (m : List GoString) (k x : GoString) :
    x ∈ setInsert m k ↔ x ∈ m ∨ x = k := by
  unfold setInsert
  split
  · constructor
    · intro h; exact Or.inl h
    · rintro (h | h)
      · exact h
      · subst h; assumption
  · simp

theorem nodup_setInsert (m : List GoString) (k : GoString) (h : m.Nodup) :
    (setInsert m k).Nodup := by
  unfold setInsert
  split
  · exact h
  · rename_i hk
    exact List.Nodup.append h (List.nodup_singleton k) (by simpa using hk)

theorem mem_foldl_setInsert (l init : List GoString) (x : GoString) :
    x ∈ l.foldl setInsert init ↔ x ∈ init ∨ x ∈ l := by
  induction l generalizing init with
  | nil => simp
  | cons a l ih =>
    simp only [List.foldl_cons, ih, mem_setInsert, List.mem_cons]
    tauto

theorem nodup_foldl_setInsert (l init : List GoString) (h : init.Nodup) :
    (l.foldl setInsert init).Nodup := by
  induction l generalizing init with
  | nil => simpa using h
  | cons a l ih => exact ih _ (nodup_setInsert _ _ h)

theorem mem_markIncomplete (D S acc : List GoString) (n x : GoString) :
    x ∈ markIncomplete D S acc n ↔
      x ∈ acc ∨ (x = n ∧ ∃ suff ∈ S, hasSuffix n suff = true ∧
        n.take (n.length - suff.length) ∈ D) := by
  unfold markIncomplete
  induction S generalizing acc with
  | nil => simp
  | cons s S ih =>
    simp only [List.foldl_cons, ih, List.mem_cons, exists_eq_or_imp]
    by_cases h1 : hasSuffix n s = true
    · by_cases h2 : List.take (n.length - s.length) n ∈ D
      · simp only [h1, h2, if_true, mem_setInsert, true_and, and_self]
        tauto
      · simp only [h1, h2, if_true, if_false, and_false, false_or, true_and]
    · simp only [h1, if_false, false_and, false_or]
      simp

theorem nodup_markIncomplete (D S acc : List GoString) (n : GoString) (h : acc.Nodup) :
    (markIncomplete D S acc n).Nodup := by
  unfold markIncomplete
  induction S generalizing acc with
  | nil => simpa using h
  | cons s S ih =>
    simp only [List.foldl_cons]
    apply ih
    split
    · split
      · exact nodup_setInsert _ _ h
      · exact h
    · exact h

theorem mem_foldl_markIncomplete (D S : List GoString) (l acc : List GoString) (x : GoString) :
    x ∈ l.foldl (markIncomplete D S) acc ↔
      x ∈ acc ∨ (x ∈ l ∧ ∃ suff ∈ S, hasSuffix x suff = true ∧
        x.take (x.length - suff.length) ∈ D) := by
  induction l generalizing acc with
  | nil => simp
  | cons a l ih =>
    simp only [List.foldl_cons, ih, mem_markIncomplete, List.mem_cons]
    constructor
    · rintro ((h | ⟨rfl, h⟩) | ⟨h1, h2⟩)
      · exact Or.inl h
      · exact Or.inr ⟨Or.inl rfl, h⟩
      · exact Or.inr ⟨Or.inr h1, h2⟩
    · rintro (h | ⟨rfl | h1, h2⟩)
      · exact Or.inl (Or.inl h)
      · exact Or.inl (Or.inr ⟨rfl, h2⟩)
      · exact Or.inr ⟨h1, h2⟩

/-- The final `range dirNames` loop splits the visited keys by membership in
`incompleteSet`, keeping the visiting order. -/
theorem foldl_split (I : List GoString) (l : List GoString) (acc : List GoString × List GoString) :
    l.foldl
      (fun (acc : List GoString × List GoString) epDirName =>
        if epDirName ∈ I then (acc.1, acc.2 ++ [epDirName])
        else (acc.1 ++ [epDirName], acc.2)) acc
      = (acc.1 ++ l.filter (fun n => decide (n ∉ I)), acc.2 ++ l.filter (fun n => decide (n ∈ I))) := by
  induction l generalizing acc with
  | nil => simp
  | cons a l ih =>
    simp only [List.foldl_cons, ih]
    by_cases h : a ∈ I
    · simp [h, List.filter_cons]
    · simp [h, List.filter_cons]

/-- The complete list is the visited key sequence with the incomplete names filtered out. -/
theorem partition_fst (ord : List GoString → List GoString) (s1 s2 : GoString)
    (names : List GoString) :
    (partitionEPDirNamesByRestoreStatus ord s1 s2 names).1 =
      (ord (names.foldl setInsert [])).filter
        (fun n => decide (n ∉ names.foldl (markIncomplete (names.foldl setInsert []) [s1, s2]) [])) := by
  unfold partitionEPDirNamesByRestoreStatus
  simp only [foldl_split, List.nil_append]

/-- The incomplete list is the visited key sequence restricted to the incomplete names. -/
theorem partition_snd (ord : List GoString → List GoString) (s1 s2 : GoString)
    (names : List GoString) :
    (partitionEPDirNamesByRestoreStatus ord s1 s2 names).2 =
      (ord (names.foldl setInsert [])).filter
        (fun n => decide (n ∈ names.foldl (markIncomplete (names.foldl setInsert []) [s1, s2]) [])) := by
  unfold partitionEPDirNamesByRestoreStatus
  simp only [foldl_split, List.nil_append]

theorem mem_incompleteSet (s1 s2 : GoString) (names : List GoString) (n : GoString) :
    n ∈ names.foldl (markIncomplete (names.foldl setInsert []) [s1, s2]) [] ↔
      n ∈ names ∧ IsLeftover s1 s2 names n := by
  rw [mem_foldl_markIncomplete]
  unfold IsLeftover
  simp only [List.not_mem_nil, false_or, mem_foldl_setInsert, List.mem_cons]
  constructor
  · rintro ⟨h, suff, hs, h1, h2⟩
    exact ⟨h, suff, by simpa using hs, h1, h2⟩
  · rintro ⟨h, suff, hs, h1, h2⟩
    exact ⟨h, suff, by simpa using hs, h1, h2⟩

theorem mem_partition_snd (ord : List GoString → List GoString) (hord : ValidOrder ord)
    (s1 s2 : GoString) (names : List GoString) (n : GoString) :
    n ∈ (partitionEPDirNamesByRestoreStatus ord s1 s2 names).2 ↔
      n ∈ names ∧ IsLeftover s1 s2 names n := by
  rw [partition_snd, List.mem_filter, (hord _).mem_iff, mem_foldl_setInsert]
  simp only [List.not_mem_nil, false_or, decide_eq_true_eq, mem_incompleteSet]
  tauto

theorem mem_partition_fst (ord : List GoString → List GoString) (hord : ValidOrder ord)
    (s1 s2 : GoString) (names : List GoString) (n : GoString) :
    n ∈ (partitionEPDirNamesByRestoreStatus ord s1 s2 names).1 ↔
      n ∈ names ∧ ¬ IsLeftover s1 s2 names n := by
  rw [partition_fst, List.mem_filter, (hord _).mem_iff, mem_foldl_setInsert]
  simp only [List.not_mem_nil, false_or, decide_eq_true_eq, mem_incompleteSet]
  tauto

theorem nodup_partition (ord : List GoString → List GoString) (hord : ValidOrder ord)
    (s1 s2 : GoString) (names : List GoString) :
    (partitionEPDirNamesByRestoreStatus ord s1 s2 names).1.Nodup ∧
    (partitionEPDirNamesByRestoreStatus ord s1 s2 names).2.Nodup := by
  have h : (ord (names.foldl setInsert [])).Nodup :=
    (hord _).nodup_iff.mpr (nodup_foldl_setInsert _ _ List.nodup_nil)
  rw [partition_fst, partition_snd]
  exact ⟨h.filter _, h.filter _⟩

theorem hasSuffix_append (x suff : GoString) : hasSuffix (x ++ suff) suff = true := by
  simp [hasSuffix]

theorem take_append_suffix (x suff : GoString) :
    (x ++ suff).take ((x ++ suff).length - suff.length) = x := by
  simp

theorem hasSuffix_iff (s suff : GoString) : hasSuffix s suff = true ↔ suff <:+ s := by
  unfold hasSuffix
  simp only [Bool.and_eq_true, decide_eq_true_eq]
  constructor
  · rintro ⟨_, h⟩
    have h2 := List.take_append_drop (s.length - suff.length) s
    rw [h] at h2
    exact ⟨s.take (s.length - suff.length), h2⟩
  · rintro ⟨t, rfl⟩
    simp

theorem validOrder_id : ValidOrder id := fun _ => List.Perm.refl _

theorem partition_sample :
    partitionEPDirNamesByRestoreStatus id sampleNext sampleNextFail
      [ascii "7", ascii "7_next", ascii "8_next", ascii "9_next_fail", ascii "9", ascii "7"]
    = ([ascii "7", ascii "8_next", ascii "9"], [ascii "7_next", ascii "9_next_fail"]) := by
  decide

/-- C1: for every list of directory names (and every iteration order of the
name set), the incomplete list holds exactly the input names that end with one of
the two staging suffixes and whose suffix-stripped name is also in the input; the
complete list holds exactly the remaining input names; a suffixed name whose
unsuffixed sibling is absent is in complete (the two suffixes not being suffixes
of one another, so that a name ends with at most one of them); every input name
is in exactly one of the two lists, and neither list repeats a name. -/
theorem partition_exact (ord : List GoString → List GoString) (hord : ValidOrder ord)
    (s1 s2 : GoString) (names : List GoString) :
    (∀ n, n ∈ (partitionEPDirNamesByRestoreStatus ord s1 s2 names).2 ↔
        n ∈ names ∧ ∃ suff, (suff = s1 ∨ suff = s2) ∧ hasSuffix n suff = true ∧
          n.take (n.length - suff.length) ∈ names) ∧
    (∀ n, n ∈ (partitionEPDirNamesByRestoreStatus ord s1 s2 names).1 ↔
        n ∈ names ∧ ¬ ∃ suff, (suff = s1 ∨ suff = s2) ∧ hasSuffix n suff = true ∧
          n.take (n.length - suff.length) ∈ names) ∧
    (¬ s1 <:+ s2 → ¬ s2 <:+ s1 → ∀ x suff, (suff = s1 ∨ suff = s2) →
        x ++ suff ∈ names → x ∉ names →
        x ++ suff ∈ (partitionEPDirNamesByRestoreStatus ord s1 s2 names).1) ∧
    (∀ n, n ∈ names →
        (n ∈ (partitionEPDirNamesByRestoreStatus ord s1 s2 names).1 ∨
          n ∈ (partitionEPDirNamesByRestoreStatus ord s1 s2 names).2) ∧
        ¬ (n ∈ (partitionEPDirNamesByRestoreStatus ord s1 s2 names).1 ∧
          n ∈ (partitionEPDirNamesByRestoreStatus ord s1 s2 names).2)) ∧
    (partitionEPDirNamesByRestoreStatus ord s1 s2 names).1.Nodup ∧
    (partitionEPDirNamesByRestoreStatus ord s1 s2 names).2.Nodup := by
  have hsnd := mem_partition_snd ord hord s1 s2 names
  have hfst := mem_partition_fst ord hord s1 s2 names
  refine ⟨hsnd, hfst, ?_, ?_, nodup_partition ord hord s1 s2 names⟩
  · intro h12 h21 x suff hs hin hx
    rw [hfst]
    refine ⟨hin, ?_⟩
    rintro ⟨suf2, hs2, hsuf, hmem⟩
    have hA : suff <:+ x ++ suff := List.suffix_append x suff
    have hB : suf2 <:+ x ++ suff := (hasSuffix_iff _ _).mp hsuf
    have heq : suf2 = suff := by
      rcases hs with rfl | rfl <;> rcases hs2 with rfl | rfl
      · rfl
      · rcases List.suffix_or_suffix_of_suffix hA hB with h | h
        · exact absurd h h12
        · exact absurd h h21
      · rcases List.suffix_or_suffix_of_suffix hA hB with h | h
        · exact absurd h h21
        · exact absurd h h12
      · rfl
    subst heq
    rw [take_append_suffix] at hmem
    exact hx hmem
  · intro n hn
    rw [hfst, hsnd]
    unfold IsLeftover
    constructor
    · by_cases h : ∃ suff, (suff = s1 ∨ suff = s2) ∧ hasSuffix n suff = true ∧
          n.take (n.length - suff.length) ∈ names
      · exact Or.inr ⟨hn, h⟩
      · exact Or.inl ⟨hn, h⟩
    · rintro ⟨⟨_, h1⟩, _, h2⟩
      exact h1 h2

/-- C1 at a concrete input: the names `7`, `7_next`, `8_next`, `9_next_fail`, `9`
with the suffixes `_next` and `_next_fail`, visited in insertion order. -/
theorem partition_exact_witness :
    ValidOrder id ∧
    ascii "7_next" ∈ (partitionEPDirNamesByRestoreStatus id sampleNext sampleNextFail
      [ascii "7", ascii "7_next", ascii "8_next", ascii "9_next_fail", ascii "9"]).2 ∧
    ascii "8_next" ∈ (partitionEPDirNamesByRestoreStatus id sampleNext sampleNextFail
      [ascii "7", ascii "7_next", ascii "8_next", ascii "9_next_fail", ascii "9"]).1 := by
  have h := partition_exact id validOrder_id sampleNext sampleNextFail
    [ascii "7", ascii "7_next", ascii "8_next", ascii "9_next_fail", ascii "9"]
  refine ⟨validOrder_id, (h.1 _).mpr ⟨by decide, sampleNext, Or.inl rfl, by decide, by decide⟩, ?_⟩
  exact h.2.2.1 (by decide) (by decide) (ascii "8") sampleNext (Or.inl rfl) (by decide) (by decide)

/-- Whatever the two suffixes are, the middle name of `x`, `x + s1`, `x + s1 + s1`
has its suffixed sibling in the list and is not in the complete list. -/
theorem partition_chain (ord : List GoString → List GoString) (hord : ValidOrder ord)
    (s1 s2 x : GoString) :
    x ++ s1 ∉ (partitionEPDirNamesByRestoreStatus ord s1 s2 [x, x ++ s1, x ++ s1 ++ s1]).1 := by
  rw [mem_partition_fst ord hord]
  rintro ⟨_, hnot⟩
  exact hnot ⟨s1, Or.inl rfl, hasSuffix_append x s1, by rw [take_append_suffix]; simp⟩

/-- C2 as stated fails: with `7`, `7_next` and `7_next_next` in the list, both
`X = 7_next` and `X + "_next"` are in the list, yet `X` is not in the complete
list (it is itself a leftover of `7`). -/
theorem partition_sibling_counterexample :
    ascii "7_next" ∈ [ascii "7", ascii "7_next", ascii "7_next_next"] ∧
    ascii "7_next" ++ sampleNext ∈ [ascii "7", ascii "7_next", ascii "7_next_next"] ∧
    ascii "7_next" ∉ (partitionEPDirNamesByRestoreStatus id sampleNext sampleNextFail
      [ascii "7", ascii "7_next", ascii "7_next_next"]).1 ∧
    partitionEPDirNamesByRestoreStatus id sampleNext sampleNextFail
      [ascii "7", ascii "7_next", ascii "7_next_next"]
      = ([ascii "7"], [ascii "7_next", ascii "7_next_next"]) := by
  decide

/-- C2, amended: when both `X` and `X + suffix` are in the list (for either
staging suffix), `X + suffix` is in the incomplete list and not in the complete
one; `X` is in the complete list exactly when `X` is not itself a leftover (it
does not end with a staging suffix whose stripped name is in the list), and in
the incomplete list otherwise. -/
theorem partition_sibling (ord : List GoString → List GoString) (hord : ValidOrder ord)
    (s1 s2 : GoString) (names : List GoString) (X suff : GoString)
    (hs : suff = s1 ∨ suff = s2) (hX : X ∈ names) (hXs : X ++ suff ∈ names) :
    X ++ suff ∈ (partitionEPDirNamesByRestoreStatus ord s1 s2 names).2 ∧
    X ++ suff ∉ (partitionEPDirNamesByRestoreStatus ord s1 s2 names).1 ∧
    (X ∈ (partitionEPDirNamesByRestoreStatus ord s1 s2 names).1 ↔
      ¬ ∃ suf2, (suf2 = s1 ∨ suf2 = s2) ∧ hasSuffix X suf2 = true ∧
          X.take (X.length - suf2.length) ∈ names) ∧
    (X ∈ (partitionEPDirNamesByRestoreStatus ord s1 s2 names).2 ↔
      ∃ suf2, (suf2 = s1 ∨ suf2 = s2) ∧ hasSuffix X suf2 = true ∧
          X.take (X.length - suf2.length) ∈ names) := by
  have hsnd := mem_partition_snd ord hord s1 s2 names
  have hfst := mem_partition_fst ord hord s1 s2 names
  have hleft : IsLeftover s1 s2 names (X ++ suff) :=
    ⟨suff, hs, hasSuffix_append X suff, by rw [take_append_suffix]; exact hX⟩
  refine ⟨(hsnd _).mpr ⟨hXs, hleft⟩, ?_, ?_, ?_⟩
  · rw [hfst]
    exact fun h => h.2 hleft
  · rw [hfst]
    unfold IsLeftover
    exact ⟨fun h => h.2, fun h => ⟨hX, h⟩⟩
  · rw [hsnd]
    unfold IsLeftover
    exact ⟨fun h => h.2, fun h => ⟨hX, h⟩⟩

/-- C2 amended, at a concrete input: `7` and `7_next`. -/
theorem partition_sibling_witness :
    ascii "7" ++ sampleNext ∈ (partitionEPDirNamesByRestoreStatus id sampleNext sampleNextFail
      [ascii "7_next", ascii "7"]).2 ∧
    ascii "7" ∈ (partitionEPDirNamesByRestoreStatus id sampleNext sampleNextFail
      [ascii "7_next", ascii "7"]).1 := by
  have h := partition_sibling id validOrder_id sampleNext sampleNextFail
    [ascii "7_next", ascii "7"] (ascii "7") sampleNext (Or.inl rfl) (by decide) (by decide)
  refine ⟨h.1, h.2.2.1.mpr ?_⟩
  rintro ⟨suf2, rfl | rfl, h1, _⟩
  · exact absurd h1 (by decide)
  · exact absurd h1 (by decide)

/-! ## Theorems: base64 and the state loader -/

theorem encode_sample : encodeStd (ascii "\x7b\x7d") = ascii "e30=" := by decide

theorem decode_sample : appendDecode (ascii "e30=\n") = .ok (ascii "\x7b\x7d") := by decide

theorem findEndpointState_sample :
    findEndpointState testOS ⟨ascii "/", [(ascii "/s/7/ep_config.h",
        ascii "/*\n * CILIUM_BASE64_:e30=\n */\n")]⟩
      sampleStateFile sampleHeaderFile samplePrefix (ascii "/s/7") = .ok (ascii "\x7b\x7d") := by
  decide

theorem decodeMap_encodeChar_fin :
    ∀ i : Fin 64, decodeMap (encodeChar i.val) = some i.val := by decide

theorem decodeMap_encodeChar (i : Nat) (h : i < 64) : decodeMap (encodeChar i) = some i :=
  decodeMap_encodeChar_fin ⟨i, h⟩

theorem encodeChar_not_newline_fin :
    ∀ i : Fin 64, (!(decide (encodeChar i.val = 10) || decide (encodeChar i.val = 13))) = true := by
  decide

theorem encodeChar_not_newline (i : Nat) (h : i < 64) :
    (!(decide (encodeChar i = 10) || decide (encodeChar i = 13))) = true :=
  encodeChar_not_newline_fin ⟨i, h⟩

theorem encodeChar_ne_colon_fin : ∀ i : Fin 64, encodeChar i.val ≠ 58 := by decide

theorem encodeChar_ne_colon (i : Nat) (h : i < 64) : encodeChar i ≠ 58 :=
  encodeChar_ne_colon_fin ⟨i, h⟩

theorem decodeMap_padChar : decodeMap padChar = none := by decide

theorem byte_ofNat_eq (a : Byte) (n : Nat) (h : n = a.val) : (Fin.ofNat n : Byte) = a := by
  apply Fin.ext
  subst h
  simp [Fin.ofNat]

/-- Decoding the quanta of an encoding gives the bytes back. -/
theorem decodeQuanta_encodeStd (J : GoString) : decodeQuanta (encodeStd J) = .ok J := by
  induction J using encodeStd.induct with
  | case1 => rfl
  | case2 a =>
    have ha := a.isLt
    simp only [encodeStd, decodeQuanta]
    rw [decodeMap_encodeChar _ (by omega), decodeMap_encodeChar _ (by omega)]
    simp only [decodeMap_padChar, and_self, if_true]
    rw [byte_ofNat_eq a _ (by omega)]
  | case3 a b =>
    have ha := a.isLt
    have hb := b.isLt
    simp only [encodeStd, decodeQuanta]
    rw [decodeMap_encodeChar _ (by omega), decodeMap_encodeChar _ (by omega),
      decodeMap_encodeChar _ (by omega)]
    simp only [decodeMap_padChar, and_self, if_true]
    rw [byte_ofNat_eq a _ (by omega), byte_ofNat_eq b _ (by omega)]
  | case4 a b c rest ih =>
    have ha := a.isLt
    have hb := b.isLt
    have hc := c.isLt
    simp only [encodeStd, decodeQuanta]
    rw [decodeMap_encodeChar _ (by omega), decodeMap_encodeChar _ (by omega),
      decodeMap_encodeChar _ (by omega), decodeMap_encodeChar _ (by omega)]
    simp only [ih]
    rw [byte_ofNat_eq a _ (by omega), byte_ofNat_eq b _ (by omega), byte_ofNat_eq c _ (by omega)]

/-- An encoding contains neither `\n` nor `\r` nor `:`. -/
theorem encodeStd_chars (J : GoString) :
    ∀ c ∈ encodeStd J, (!(decide (c = 10) || decide (c = 13))) = true ∧ c ≠ 58 := by
  have hp : (!(decide (padChar = 10) || decide (padChar = 13))) = true ∧ padChar ≠ 58 := by decide
  induction J using encodeStd.induct with
  | case1 => simp [encodeStd]
  | case2 a =>
    have ha := a.isLt
    intro c hc
    simp only [encodeStd, List.mem_cons, List.mem_singleton, List.not_mem_nil, or_false] at hc
    rcases hc with rfl | rfl | rfl | rfl
    · exact ⟨encodeChar_not_newline _ (by omega), encodeChar_ne_colon _ (by omega)⟩
    · exact ⟨encodeChar_not_newline _ (by omega), encodeChar_ne_colon _ (by omega)⟩
    · exact hp
    · exact hp
  | case3 a b =>
    have ha := a.isLt
    have hb := b.isLt
    intro c hc
    simp only [encodeStd, List.mem_cons, List.mem_singleton, List.not_mem_nil, or_false] at hc
    rcases hc with rfl | rfl | rfl | rfl
    · exact ⟨encodeChar_not_newline _ (by omega), encodeChar_ne_colon _ (by omega)⟩
    · exact ⟨encodeChar_not_newline _ (by omega), encodeChar_ne_colon _ (by omega)⟩
    · exact ⟨encodeChar_not_newline _ (by omega), encodeChar_ne_colon _ (by omega)⟩
    · exact hp
  | case4 a b c rest ih =>
    have ha := a.isLt
    have hb := b.isLt
    have hc := c.isLt
    intro x hx
    simp only [encodeStd, List.mem_cons] at hx
    rcases hx with rfl | rfl | rfl | rfl | hx
    · exact ⟨encodeChar_not_newline _ (by omega), encodeChar_ne_colon _ (by omega)⟩
    · exact ⟨encodeChar_not_newline _ (by omega), encodeChar_ne_colon _ (by omega)⟩
    · exact ⟨encodeChar_not_newline _ (by omega), encodeChar_ne_colon _ (by omega)⟩
    · exact ⟨encodeChar_not_newline _ (by omega), encodeChar_ne_colon _ (by omega)⟩
    · exact ih x hx

theorem stripNewlines_encodeStd (J : GoString) : stripNewlines (encodeStd J) = encodeStd J := by
  unfold stripNewlines
  rw [List.filter_eq_self]
  intro c hc
  exact (encodeStd_chars J c hc).1

/-- Standard base64 round trip, with a trailing newline as left by `ReadBytes`. -/
theorem appendDecode_encodeStd_newline (J : GoString) :
    appendDecode (encodeStd J ++ [10]) = .ok J := by
  unfold appendDecode
  have h : stripNewlines (encodeStd J ++ [10]) = encodeStd J := by
    rw [show stripNewlines (encodeStd J ++ [10])
        = stripNewlines (encodeStd J) ++ stripNewlines [10] from List.filter_append _ _]
    rw [stripNewlines_encodeStd]
    simp [stripNewlines]
  rw [h, decodeQuanta_encodeStd]

theorem hasPrefix_append (p rest : GoString) : hasPrefix (p ++ rest) p = true := by
  induction p with
  | nil => cases rest <;> rfl
  | cons a p ih => simp [hasPrefix, ih]

theorem bytesContains_of_hasPrefix (s sub : GoString) (h : hasPrefix s sub = true) :
    bytesContains s sub = true := by
  cases s with
  | nil => simpa [bytesContains] using h
  | cons a s => simp [bytesContains, h]

theorem bytesContains_append_left (lead s sub : GoString) (h : bytesContains s sub = true) :
    bytesContains (lead ++ s) sub = true := by
  induction lead with
  | nil => simpa using h
  | cons a lead ih => simp [bytesContains, ih]

theorem bytesSplit_no_sep (sep : Byte) (s : GoString) (h : sep ∉ s) : bytesSplit sep s = [s] := by
  induction s with
  | nil => rfl
  | cons b bs ih =>
    have hb : b ≠ sep := fun e => h (by simp [e])
    have hbs : sep ∉ bs := fun e => h (by simp [e])
    simp [bytesSplit, hb, ih hbs]

theorem bytesSplit_one_sep (sep : Byte) (a b : GoString) (ha : sep ∉ a) (hb : sep ∉ b) :
    bytesSplit sep (a ++ sep :: b) = [a, b] := by
  induction a with
  | nil => simp [bytesSplit, bytesSplit_no_sep sep b hb]
  | cons x a ih =>
    have hx : x ≠ sep := fun e => ha (by simp [e])
    have ha' : sep ∉ a := fun e => ha (by simp [e])
    simp [bytesSplit, hx, ih ha']

theorem readAllLines_line (l rest : GoString) (h : (10 : Byte) ∉ l) :
    readAllLines (l ++ 10 :: rest) = ((l ++ [10]) :: (readAllLines rest).1, (readAllLines rest).2) := by
  induction l with
  | nil => simp [readAllLines]
  | cons x l ih =>
    have hx : x ≠ 10 := fun e => h (by simp [e])
    have hl : (10 : Byte) ∉ l := fun e => h (by simp [e])
    simp [readAllLines, hx, ih hl]

theorem readAllLines_append (before rest : GoString) (h : (readAllLines before).2 = []) :
    readAllLines (before ++ rest)
      = ((readAllLines before).1 ++ (readAllLines rest).1, (readAllLines rest).2) := by
  induction before with
  | nil => simp [readAllLines]
  | cons b bs ih =>
    by_cases hb : b = 10
    · subst hb
      have h' : (readAllLines bs).2 = [] := by simpa [readAllLines] using h
      simp [readAllLines, ih h']
    · cases hl : (readAllLines bs).1 with
      | nil => simp [readAllLines, hb, hl] at h
      | cons l ls =>
        have h' : (readAllLines bs).2 = [] := by simpa [readAllLines, hb, hl] using h
        simp [readAllLines, hb, hl, ih h']

theorem scanHeader_skip (pfx : GoString) (endErr : GoError) (L1 L2 : List GoString)
    (h : ∀ l ∈ L1, bytesContains l pfx = false) :
    scanHeader pfx endErr (L1 ++ L2) = scanHeader pfx endErr L2 := by
  induction L1 with
  | nil => rfl
  | cons l L1 ih =>
    have hl : bytesContains l pfx = false := h l (by simp)
    simp only [List.cons_append, scanHeader, hl]
    exact ih (fun x hx => h x (by simp [hx]))

/-- The legacy path of the state loader, for a header whose first line containing
the marker is `lead ++ PREFIX ++ mid ++ ":" ++ base64(J) ++ "\n"`. -/
theorem findEndpointState_header_line {σ : Type} (os : OS σ) (w : σ)
    (stateFile headerFile pfx dir J before after lead mid : GoString) (err endErr : GoError)
    (hcolon : (58 : Byte) ∉ lead ++ pfx ++ mid) (hnl : (10 : Byte) ∉ lead ++ pfx ++ mid)
    (hjson : os.readFile w (os.join dir stateFile) = .error err)
    (hne : errorsIsNotExist err = true)
    (hopen : os.openFile w (os.join dir headerFile)
      = .ok (before ++ ((lead ++ pfx ++ mid) ++ 58 :: encodeStd J ++ [10]) ++ after, endErr))
    (hb1 : (readAllLines before).2 = [])
    (hb2 : ∀ l ∈ (readAllLines before).1, bytesContains l pfx = false) :
    findEndpointState os w stateFile headerFile pfx dir = .ok J := by
  have hnoNl : (10 : Byte) ∉ (lead ++ pfx ++ mid) ++ 58 :: encodeStd J := by
    intro hmem
    rcases List.mem_append.mp hmem with h | h
    · exact hnl h
    · rcases List.mem_cons.mp h with h | h
      · exact absurd h (by decide)
      · have := (encodeStd_chars J 10 h).1
        simp at this
  have hlines : (readAllLines (before ++ ((lead ++ pfx ++ mid) ++ 58 :: encodeStd J ++ [10])
      ++ after)).1 = (readAllLines before).1 ++
        (((lead ++ pfx ++ mid) ++ 58 :: encodeStd J ++ [10]) :: (readAllLines after).1) := by
    rw [List.append_assoc, readAllLines_append _ _ hb1]
    have e : ((lead ++ pfx ++ mid) ++ 58 :: encodeStd J ++ [10]) ++ after
        = ((lead ++ pfx ++ mid) ++ 58 :: encodeStd J) ++ 10 :: after := by simp
    rw [e, readAllLines_line _ _ hnoNl]
  have hcont : bytesContains ((lead ++ pfx ++ mid) ++ 58 :: encodeStd J ++ [10]) pfx = true := by
    have e : (lead ++ pfx ++ mid) ++ 58 :: encodeStd J ++ [10]
        = lead ++ (pfx ++ (mid ++ 58 :: encodeStd J ++ [10])) := by simp
    rw [e]
    exact bytesContains_append_left _ _ _ (bytesContains_of_hasPrefix _ _ (hasPrefix_append _ _))
  have hsplit : bytesSplit 58 ((lead ++ pfx ++ mid) ++ 58 :: encodeStd J ++ [10])
      = [lead ++ pfx ++ mid, encodeStd J ++ [10]] := by
    have e : (lead ++ pfx ++ mid) ++ 58 :: encodeStd J ++ [10]
        = (lead ++ pfx ++ mid) ++ 58 :: (encodeStd J ++ [10]) := by simp
    rw [e]
    apply bytesSplit_one_sep _ _ _ hcolon
    intro hmem
    rcases List.mem_append.mp hmem with h | h
    · exact (encodeStd_chars J 58 h).2 rfl
    · exact absurd (List.mem_singleton.mp h) (by decide)
  unfold findEndpointState
  simp only [hjson, hne, hopen, hlines, Bool.not_true, Bool.false_eq_true, if_false]
  rw [scanHeader_skip _ _ _ _ hb2]
  simp only [scanHeader, hcont, if_true, hsplit]
  simp [appendDecode_encodeStd_newline]

/-- C4 as stated fails: the directory has no JSON state file and its header file
contains the line `CILIUM_BASE64_:e30=` (`e30=` is the base64 of the two bytes
of `J`, an empty JSON object), but an earlier line mentions the marker, so the
loader takes that line and returns an invalid-format error. -/
theorem findEndpointState_counterexample :
    testOS.readFile ⟨ascii "/", [(ascii "/s/7/ep_config.h",
        ascii " * CILIUM_BASE64_ state\n" ++ (samplePrefix ++ 58 :: encodeStd (ascii "\x7b\x7d") ++ [10]))]⟩
      (testOS.join (ascii "/s/7") sampleStateFile) = .error (.pathError true 2) ∧
    testOS.openFile ⟨ascii "/", [(ascii "/s/7/ep_config.h",
        ascii " * CILIUM_BASE64_ state\n" ++ (samplePrefix ++ 58 :: encodeStd (ascii "\x7b\x7d") ++ [10]))]⟩
      (testOS.join (ascii "/s/7") sampleHeaderFile)
      = .ok (ascii " * CILIUM_BASE64_ state\n" ++ ascii "CILIUM_BASE64_:e30=\n", .eof) ∧
    findEndpointState testOS ⟨ascii "/", [(ascii "/s/7/ep_config.h",
        ascii " * CILIUM_BASE64_ state\n" ++ (samplePrefix ++ 58 :: encodeStd (ascii "\x7b\x7d") ++ [10]))]⟩
      sampleStateFile sampleHeaderFile samplePrefix (ascii "/s/7")
      = .error (.invalidFormat (ascii " * CILIUM_BASE64_ state\n")) := by
  decide

/-- C4, amended: for every byte string `J`, if a directory has no JSON state file
and the first line of its legacy header file that contains the marker is the
newline-terminated line `PREFIX:<standard base64 of J>` (the marker itself
holding neither a colon nor a newline), then `findEndpointState` succeeds and
returns exactly `J`, the same bytes it returns when the JSON state file is
present with content `J`. -/
theorem findEndpointState_legacy {σ : Type} (os : OS σ) (w : σ)
    (stateFile headerFile pfx dir J before after : GoString) (err endErr : GoError)
    (hcolon : (58 : Byte) ∉ pfx) (hnl : (10 : Byte) ∉ pfx)
    (hjson : os.readFile w (os.join dir stateFile) = .error err)
    (hne : errorsIsNotExist err = true)
    (hopen : os.openFile w (os.join dir headerFile)
      = .ok (before ++ (pfx ++ 58 :: encodeStd J ++ [10]) ++ after, endErr))
    (hb1 : (readAllLines before).2 = [])
    (hb2 : ∀ l ∈ (readAllLines before).1, bytesContains l pfx = false) :
    findEndpointState os w stateFile headerFile pfx dir = .ok J ∧
    ∀ w2 : σ, os.readFile w2 (os.join dir stateFile) = .ok J →
      findEndpointState os w2 stateFile headerFile pfx dir = .ok J := by
  constructor
  · apply findEndpointState_header_line os w stateFile headerFile pfx dir J before after [] []
      err endErr (by simpa using hcolon) (by simpa using hnl) hjson hne _ hb1 hb2
    simpa using hopen
  · intro w2 h2
    unfold findEndpointState
    simp only [h2]

/-- C4 amended, at a concrete input: a header of three lines whose second line is
`CILIUM_BASE64_:e30=`, and the same directory holding the JSON file instead. -/
theorem findEndpointState_legacy_witness :
    findEndpointState testOS ⟨ascii "/", [(ascii "/s/7/ep_config.h",
        ascii "/*\n" ++ (samplePrefix ++ 58 :: encodeStd (ascii "\x7b\x7d") ++ [10]) ++ ascii " */\n")]⟩
      sampleStateFile sampleHeaderFile samplePrefix (ascii "/s/7") = .ok (ascii "\x7b\x7d") ∧
    findEndpointState testOS ⟨ascii "/", [(ascii "/s/7/ep_config.json", ascii "\x7b\x7d")]⟩
      sampleStateFile sampleHeaderFile samplePrefix (ascii "/s/7") = .ok (ascii "\x7b\x7d") := by
  have h := findEndpointState_legacy testOS
    ⟨ascii "/", [(ascii "/s/7/ep_config.h",
        ascii "/*\n" ++ (samplePrefix ++ 58 :: encodeStd (ascii "\x7b\x7d") ++ [10]) ++ ascii " */\n")]⟩
    sampleStateFile sampleHeaderFile samplePrefix (ascii "/s/7") (ascii "\x7b\x7d")
    (ascii "/*\n") (ascii " */\n") (.pathError true 2) .eof
    (by decide) (by decide) (by decide) (by decide) (by decide) (by decide) (by decide)
  exact ⟨h.1, h.2 ⟨ascii "/", [(ascii "/s/7/ep_config.json", ascii "\x7b\x7d")]⟩ (by decide)⟩

/-! ## Theorems: snapshot conversion -/

/-- C5 as stated fails: an endpoint whose properties map is nil comes back from
the round trip with a non-nil empty properties map. -/
theorem roundtrip_counterexample :
    (testEndpoint 7 []).properties = none ∧
    (fromSerializedEndpoint (testEndpoint 0 []) (1 : Nat) (2 : Nat)
      (toSerializedEndpoint testMethods (testEndpoint 7 []))).properties = some [] ∧
    (fromSerializedEndpoint (testEndpoint 0 []) (1 : Nat) (2 : Nat)
      (toSerializedEndpoint testMethods (testEndpoint 7 []))).properties
      ≠ (testEndpoint 7 []).properties := by
  refine ⟨rfl, rfl, ?_⟩
  intro h
  cases h

/-- C5, amended: for every endpoint `e`, `fromSerializedEndpoint` applied to
`toSerializedEndpoint(e)` yields an endpoint whose persisted fields are equal to
those of `e` (the container name and id as read through their getters, which
return the stored string), except that nil properties come back as the empty
non-nil map; the creation time and the `InitialEnvoyPolicyComputed` channel are
the fresh ones, whatever `e` held. -/
theorem roundtrip {X : Ext} (m : Methods X)
    (hName : ∀ (e : Endpoint X) (s : GoString), e.containerName = some s → m.GetContainerName e = s)
    (hID : ∀ (e : Endpoint X) (s : GoString), e.containerID = some s → m.GetContainerID e = s)
    (e ep : Endpoint X) (now : X.Time) (ch : X.Chan) :
    (fromSerializedEndpoint ep now ch (toSerializedEndpoint m e)).ID = e.ID ∧
    m.GetContainerName (fromSerializedEndpoint ep now ch (toSerializedEndpoint m e))
      = m.GetContainerName e ∧
    m.GetContainerID (fromSerializedEndpoint ep now ch (toSerializedEndpoint m e))
      = m.GetContainerID e ∧
    (fromSerializedEndpoint ep now ch (toSerializedEndpoint m e)).dockerNetworkID
      = e.dockerNetworkID ∧
    (fromSerializedEndpoint ep now ch (toSerializedEndpoint m e)).dockerEndpointID
      = e.dockerEndpointID ∧
    (fromSerializedEndpoint ep now ch (toSerializedEndpoint m e)).ifName = e.ifName ∧
    (fromSerializedEndpoint ep now ch (toSerializedEndpoint m e)).ifIndex = e.ifIndex ∧
    (fromSerializedEndpoint ep now ch (toSerializedEndpoint m e)).parentIfIndex
      = e.parentIfIndex ∧
    (fromSerializedEndpoint ep now ch (toSerializedEndpoint m e)).containerIfName
      = e.containerIfName ∧
    (fromSerializedEndpoint ep now ch (toSerializedEndpoint m e)).disableLegacyIdentifiers
      = e.disableLegacyIdentifiers ∧
    (fromSerializedEndpoint ep now ch (toSerializedEndpoint m e)).labels = e.labels ∧
    (fromSerializedEndpoint ep now ch (toSerializedEndpoint m e)).mac = e.mac ∧
    (fromSerializedEndpoint ep now ch (toSerializedEndpoint m e)).nodeMAC = e.nodeMAC ∧
    (fromSerializedEndpoint ep now ch (toSerializedEndpoint m e)).IPv4 = e.IPv4 ∧
    (fromSerializedEndpoint ep now ch (toSerializedEndpoint m e)).IPv4IPAMPool = e.IPv4IPAMPool ∧
    (fromSerializedEndpoint ep now ch (toSerializedEndpoint m e)).IPv6 = e.IPv6 ∧
    (fromSerializedEndpoint ep now ch (toSerializedEndpoint m e)).IPv6IPAMPool = e.IPv6IPAMPool ∧
    (fromSerializedEndpoint ep now ch (toSerializedEndpoint m e)).SecurityIdentity
      = e.SecurityIdentity ∧
    (fromSerializedEndpoint ep now ch (toSerializedEndpoint m e)).Options = e.Options ∧
    (fromSerializedEndpoint ep now ch (toSerializedEndpoint m e)).DNSRules = e.DNSRules ∧
    (fromSerializedEndpoint ep now ch (toSerializedEndpoint m e)).DNSRulesV2 = e.DNSRulesV2 ∧
    (fromSerializedEndpoint ep now ch (toSerializedEndpoint m e)).DNSHistory = e.DNSHistory ∧
    (fromSerializedEndpoint ep now ch (toSerializedEndpoint m e)).DNSZombies = e.DNSZombies ∧
    (fromSerializedEndpoint ep now ch (toSerializedEndpoint m e)).K8sPodName = e.K8sPodName ∧
    (fromSerializedEndpoint ep now ch (toSerializedEndpoint m e)).K8sNamespace = e.K8sNamespace ∧
    (fromSerializedEndpoint ep now ch (toSerializedEndpoint m e)).K8sUID = e.K8sUID ∧
    (fromSerializedEndpoint ep now ch (toSerializedEndpoint m e)).DatapathConfiguration
      = e.DatapathConfiguration ∧
    (fromSerializedEndpoint ep now ch (toSerializedEndpoint m e)).ciliumEndpointUID
      = e.ciliumEndpointUID ∧
    (fromSerializedEndpoint ep now ch (toSerializedEndpoint m e)).NetNsCookie = e.NetNsCookie ∧
    (e.properties ≠ none →
      (fromSerializedEndpoint ep now ch (toSerializedEndpoint m e)).properties = e.properties) ∧
    (e.properties = none →
      (fromSerializedEndpoint ep now ch (toSerializedEndpoint m e)).properties = some []) ∧
    (fromSerializedEndpoint ep now ch (toSerializedEndpoint m e)).createdAt = now ∧
    (fromSerializedEndpoint ep now ch (toSerializedEndpoint m e)).InitialEnvoyPolicyComputed = ch := by
  refine ⟨rfl, hName _ _ rfl, hID _ _ rfl, rfl, rfl, rfl, rfl, rfl, rfl, rfl, rfl, rfl, rfl, rfl,
    rfl, rfl, rfl, rfl, rfl, rfl, rfl, rfl, rfl, rfl, rfl, rfl, rfl, rfl, rfl, ?_, ?_, rfl, rfl⟩
  · intro h
    cases hp : e.properties with
    | none => exact absurd hp h
    | some props => simp [fromSerializedEndpoint, toSerializedEndpoint, hp]
  · intro h
    simp [fromSerializedEndpoint, toSerializedEndpoint, h]

/-- An endpoint with properties, a creation time and a channel of its own. -/
theorem roundtrip_witness :
    (fromSerializedEndpoint (testEndpoint 0 []) (1 : Nat) (2 : Nat)
      (toSerializedEndpoint testMethods
        { testEndpoint 7 (ascii "lxc7") with
          properties := some [(ascii "k", (5 : Nat))], createdAt := (9 : Nat),
          containerName := some (ascii "c") })).properties = some [(ascii "k", (5 : Nat))] ∧
    (fromSerializedEndpoint (testEndpoint 0 []) (1 : Nat) (2 : Nat)
      (toSerializedEndpoint testMethods
        { testEndpoint 7 (ascii "lxc7") with
          properties := some [(ascii "k", (5 : Nat))], createdAt := (9 : Nat),
          containerName := some (ascii "c") })).createdAt = (1 : Nat) := by
  have h := roundtrip testMethods
    (fun e s h => by simp [testMethods, h]) (fun e s h => by simp [testMethods, h])
    { testEndpoint 7 (ascii "lxc7") with
      properties := some [(ascii "k", (5 : Nat))], createdAt := (9 : Nat),
      containerName := some (ascii "c") }
    (testEndpoint 0 []) (1 : Nat) (2 : Nat)
  exact ⟨h.2.2.2.2.2.2.2.2.2.2.2.2.2.2.2.2.2.2.2.2.2.2.2.2.2.2.2.2.2.1 (by simp [testEndpoint]),
    h.2.2.2.2.2.2.2.2.2.2.2.2.2.2.2.2.2.2.2.2.2.2.2.2.2.2.2.2.2.2.2.1⟩

/-- C6: for every snapshot whose `Properties` is nil, `fromSerializedEndpoint`
leaves the endpoint's properties as a non-nil empty mapping; for every snapshot
whose `Properties` is non-nil, the endpoint's properties equal the snapshot's.
The same holds through `UnmarshalJSON`, which converts the decoded snapshot. -/
theorem properties_default {X : Ext} (ep : Endpoint X) (now : X.Time) (ch : X.Chan)
    (r : serializableEndpoint X) :
    (fromSerializedEndpoint ep now ch r).properties ≠ none ∧
    (r.Properties = none → (fromSerializedEndpoint ep now ch r).properties = some []) ∧
    (r.Properties ≠ none → (fromSerializedEndpoint ep now ch r).properties = r.Properties) ∧
    (∀ unmarshal defaults raw,
      unmarshal raw defaults = Except.ok r →
      ∃ ep2, UnmarshalJSON unmarshal defaults now ch ep raw = Except.ok ep2 ∧
        ep2.properties ≠ none ∧
        (r.Properties = none → ep2.properties = some []) ∧
        (r.Properties ≠ none → ep2.properties = r.Properties)) := by
  have h1 : (fromSerializedEndpoint ep now ch r).properties ≠ none := by
    cases hp : r.Properties <;> simp [fromSerializedEndpoint, hp]
  have h2 : r.Properties = none → (fromSerializedEndpoint ep now ch r).properties = some [] := by
    intro h
    simp [fromSerializedEndpoint, h]
  have h3 : r.Properties ≠ none →
      (fromSerializedEndpoint ep now ch r).properties = r.Properties := by
    intro h
    cases hp : r.Properties with
    | none => exact absurd hp h
    | some props => simp [fromSerializedEndpoint, hp]
  refine ⟨h1, h2, h3, ?_⟩
  intro unmarshal defaults raw hu
  exact ⟨fromSerializedEndpoint ep now ch r, by simp [UnmarshalJSON, hu], h1, h2, h3⟩

/-- C6 at concrete snapshots: one without properties, one with a property. -/
theorem properties_default_witness :
    (fromSerializedEndpoint (testEndpoint 0 []) (1 : Nat) (2 : Nat)
      (toSerializedEndpoint testMethods (testEndpoint 7 []))).properties = some [] ∧
    (fromSerializedEndpoint (testEndpoint 0 []) (1 : Nat) (2 : Nat)
      { toSerializedEndpoint testMethods (testEndpoint 7 []) with
        Properties := some [(ascii "k", (5 : Nat))] }).properties
      = some [(ascii "k", (5 : Nat))] :=
  ⟨(properties_default (testEndpoint 0 []) (1 : Nat) (2 : Nat)
      (toSerializedEndpoint testMethods (testEndpoint 7 []))).2.1 rfl,
   (properties_default (testEndpoint 0 []) (1 : Nat) (2 : Nat)
      { toSerializedEndpoint testMethods (testEndpoint 7 []) with
        Properties := some [(ascii "k", (5 : Nat))] }).2.2.1 (by simp)⟩

/-! ## Theorems: restore manager -/

theorem readEPs_sample :
    summary (ReadEPsFromDirNames testSetup
      ⟨ascii "/s", [(ascii "/s/7/ep_config.json", ascii "7a"),
        (ascii "/s/7_next/ep_config.json", ascii "7b"),
        (ascii "/s/8/ep_config.json", ascii "8c")]⟩
      (ascii "/s") [ascii "7", ascii "7_next", ascii "8", ascii "9"]).possibleEPs
    = [(7, 7, ascii "a"), (8, 8, ascii "c")] := by
  decide

theorem mapLookup_mapSet {V : Type} (m : List (Nat × V)) (k k2 : Nat) (v : V) :
    mapLookup (mapSet m k v) k2 = if k = k2 then some v else mapLookup m k2 := by
  induction m with
  | nil => simp [mapSet, mapLookup]
  | cons p m ih =>
    obtain ⟨a, b⟩ := p
    by_cases h : a = k
    · subst h
      by_cases h2 : a = k2 <;> simp [mapSet, mapLookup, h2]
    · by_cases h2 : a = k2
      · subst h2
        simp [mapSet, mapLookup, h, Ne.symm h]
      · simp [mapSet, mapLookup, h, h2, ih]

theorem keys_mapSet {V : Type} (m : List (Nat × V)) (k : Nat) (v : V) :
    ∀ x, x ∈ (mapSet m k v).map Prod.fst ↔ x ∈ m.map Prod.fst ∨ x = k := by
  induction m with
  | nil => simp [mapSet]
  | cons p m ih =>
    obtain ⟨a, b⟩ := p
    intro x
    by_cases h : a = k
    · subst h
      simp [mapSet]
      tauto
    · simp only [mapSet, h, if_false, List.map_cons, List.mem_cons, ih]
      tauto

theorem nodup_mapSet {V : Type} (m : List (Nat × V)) (k : Nat) (v : V)
    (h : (m.map Prod.fst).Nodup) : ((mapSet m k v).map Prod.fst).Nodup := by
  induction m with
  | nil => simp [mapSet]
  | cons p m ih =>
    obtain ⟨a, b⟩ := p
    simp only [List.map_cons, List.nodup_cons] at h
    by_cases hk : a = k
    · subst hk
      simpa [mapSet] using h
    · simp only [mapSet, hk, if_false, List.map_cons, List.nodup_cons]
      refine ⟨?_, ih h.2⟩
      intro hmem
      rcases (keys_mapSet m k v a).mp hmem with h1 | h1
      · exact h.1 h1
      · exact hk h1

theorem entries_mapSet {V : Type} (m : List (Nat × V)) (k : Nat) (v : V) (p : Nat × V)
    (hp : p ∈ mapSet m k v) : p ∈ m ∨ p = (k, v) := by
  induction m with
  | nil => simpa [mapSet] using hp
  | cons q m ih =>
    obtain ⟨a, b⟩ := q
    by_cases hk : a = k
    · simp only [mapSet, hk, if_true, List.mem_cons] at hp
      rcases hp with h | h
      · exact Or.inr h
      · exact Or.inl (List.mem_cons_of_mem _ h)
    · simp only [mapSet, hk, if_false, List.mem_cons] at hp
      rcases hp with h | h
      · exact Or.inl (by simp [h])
      · rcases ih h with h1 | h1
        · exact Or.inl (List.mem_cons_of_mem _ h1)
        · exact Or.inr h1

/-- In a map without duplicate keys, the entries under a key are the one found by lookup. -/
theorem filter_key_eq {V : Type} (m : List (Nat × V)) (k : Nat) (v : V)
    (hnd : (m.map Prod.fst).Nodup) (hl : mapLookup m k = some v) :
    m.filter (fun p => decide (p.1 = k)) = [(k, v)] := by
  induction m with
  | nil => simp [mapLookup] at hl
  | cons p m ih =>
    obtain ⟨a, b⟩ := p
    simp only [List.map_cons, List.nodup_cons] at hnd
    by_cases h : a = k
    · subst h
      simp only [mapLookup, if_true, Option.some.injEq] at hl
      subst hl
      have hrest : m.filter (fun p => decide (p.1 = a)) = [] := by
        rw [List.filter_eq_nil_iff]
        intro q hq hqa
        apply hnd.1
        have : q.1 = a := by simpa using hqa
        rw [← this]
        exact List.mem_map_of_mem _ hq
      simp [List.filter_cons, hrest]
    · simp only [mapLookup, h, if_false] at hl
      simp [List.filter_cons, h, ih hnd.2 hl]

theorem restoreStep_possibleEPs {σ : Type} {X : Ext} (s : Setup σ X) (basePath : GoString)
    (w : σ) (acc : LoopState X) (d : GoString) :
    (restoreStep s basePath w acc d).possibleEPs =
      match loadEndpoint s basePath w d with
      | none => acc.possibleEPs
      | some ep => insertCandidate s.methods acc.possibleEPs d ep := by
  cases h : findEndpointState s.os w s.EndpointStateFileName s.CHeaderFileName
      s.ciliumCHeaderPrefix (s.os.join basePath d) with
  | error err => simp [restoreStep, loadEndpoint, h]
  | ok state =>
    cases h2 : s.ParseEndpoint state with
    | error err => simp [restoreStep, loadEndpoint, h, h2]
    | ok ep => simp [restoreStep, loadEndpoint, h, h2, insertCandidate]

theorem foldl_restoreStep_possibleEPs {σ : Type} {X : Ext} (s : Setup σ X)
    (basePath : GoString) (w : σ) (dirs : List GoString) (acc : LoopState X) :
    (dirs.foldl (restoreStep s basePath w) acc).possibleEPs
      = processMap s basePath w dirs acc.possibleEPs := by
  induction dirs generalizing acc with
  | nil => rfl
  | cons d dirs ih =>
    simp only [List.foldl_cons, ih, restoreStep_possibleEPs, processMap]

theorem readEPs_possibleEPs {σ : Type} {X : Ext} (s : Setup σ X) (w : σ)
    (basePath : GoString) (names : List GoString) :
    (ReadEPsFromDirNames s w basePath names).possibleEPs
      = processMap s basePath (ReadEPsFromDirNames s w basePath names).world
          (partitionEPDirNamesByRestoreStatus s.ord s.nextDirectorySuffix
            s.nextFailedDirectorySuffix names).1 [] := by
  simp only [ReadEPsFromDirNames, foldl_restoreStep_possibleEPs]

theorem processMap_append {σ : Type} {X : Ext} (s : Setup σ X) (basePath : GoString) (w : σ)
    (l1 l2 : List GoString) (acc : List (Nat × Endpoint X)) :
    processMap s basePath w (l1 ++ l2) acc
      = processMap s basePath w l2 (processMap s basePath w l1 acc) := by
  simp [processMap, List.foldl_append]

theorem processMap_cons {σ : Type} {X : Ext} (s : Setup σ X) (basePath : GoString) (w : σ)
    (d : GoString) (l : List GoString) (acc : List (Nat × Endpoint X)) :
    processMap s basePath w (d :: l) acc
      = processMap s basePath w l
          (match loadEndpoint s basePath w d with
           | none => acc
           | some ep => insertCandidate s.methods acc d ep) := by
  simp [processMap]

/-- Directories that yield no endpoint do not change the map. -/
theorem processMap_filter {σ : Type} {X : Ext} (s : Setup σ X) (basePath : GoString) (w : σ)
    (dirs : List GoString) (acc : List (Nat × Endpoint X)) :
    processMap s basePath w dirs acc
      = processMap s basePath w
          (dirs.filter (fun d => (loadEndpoint s basePath w d).isSome)) acc := by
  induction dirs generalizing acc with
  | nil => rfl
  | cons d dirs ih =>
    cases h : loadEndpoint s basePath w d with
    | none => simp [List.filter_cons, h, processMap_cons, ih]
    | some ep => simp [List.filter_cons, h, processMap_cons, ih]

theorem insertCandidate_keys {X : Ext} (m : Methods X) (acc : List (Nat × Endpoint X))
    (d : GoString) (ep : Endpoint X)
    (h1 : ∀ p ∈ acc, p.1 = p.2.ID) (h2 : (acc.map Prod.fst).Nodup) :
    (∀ p ∈ insertCandidate m acc d ep, p.1 = p.2.ID) ∧
    ((insertCandidate m acc d ep).map Prod.fst).Nodup := by
  have hset : ∀ p ∈ mapSet acc ep.ID ep, p.1 = p.2.ID := by
    intro p hp
    rcases entries_mapSet _ _ _ _ hp with h | h
    · exact h1 p h
    · rw [h]
  unfold insertCandidate
  split
  · split
    · exact ⟨hset, nodup_mapSet _ _ _ h2⟩
    · exact ⟨h1, h2⟩
  · exact ⟨hset, nodup_mapSet _ _ _ h2⟩

theorem processMap_keys {σ : Type} {X : Ext} (s : Setup σ X) (basePath : GoString) (w : σ)
    (dirs : List GoString) (acc : List (Nat × Endpoint X))
    (h1 : ∀ p ∈ acc, p.1 = p.2.ID) (h2 : (acc.map Prod.fst).Nodup) :
    (∀ p ∈ processMap s basePath w dirs acc, p.1 = p.2.ID) ∧
    ((processMap s basePath w dirs acc).map Prod.fst).Nodup := by
  induction dirs generalizing acc with
  | nil => exact ⟨h1, h2⟩
  | cons d dirs ih =>
    rw [processMap_cons]
    cases h : loadEndpoint s basePath w d with
    | none => exact ih acc h1 h2
    | some ep =>
      have := insertCandidate_keys s.methods acc d ep h1 h2
      exact ih _ this.1 this.2

theorem insertCandidate_lookup_other {X : Ext} (m : Methods X) (acc : List (Nat × Endpoint X))
    (d : GoString) (ep : Endpoint X) (i : Nat) (h : ep.ID ≠ i) :
    mapLookup (insertCandidate m acc d ep) i = mapLookup acc i := by
  unfold insertCandidate
  split
  · split
    · rw [mapLookup_mapSet, if_neg h]
    · rfl
  · rw [mapLookup_mapSet, if_neg h]

theorem insertCandidate_lookup_new {X : Ext} (m : Methods X) (acc : List (Nat × Endpoint X))
    (d : GoString) (ep : Endpoint X) (h : mapLookup acc ep.ID = none) :
    mapLookup (insertCandidate m acc d ep) ep.ID = some ep := by
  unfold insertCandidate
  rw [h]
  simp [mapLookup_mapSet]

theorem insertCandidate_lookup_old {X : Ext} (m : Methods X) (acc : List (Nat × Endpoint X))
    (d : GoString) (ep old : Endpoint X) (h : mapLookup acc ep.ID = some old) :
    mapLookup (insertCandidate m acc d ep) ep.ID
      = some (if hasSuffix (m.DirectoryPath ep) d then ep else old) := by
  unfold insertCandidate
  rw [h]
  by_cases hm : hasSuffix (m.DirectoryPath ep) d = true
  · simp [hm, mapLookup_mapSet]
  · simp [hm, h]

/-- Directories that yield no endpoint of id `i` leave the entry of `i` alone. -/
theorem processMap_lookup_other {σ : Type} {X : Ext} (s : Setup σ X) (basePath : GoString)
    (w : σ) (dirs : List GoString) (acc : List (Nat × Endpoint X)) (i : Nat)
    (h : ∀ d ∈ dirs, ∀ ep, loadEndpoint s basePath w d = some ep → ep.ID ≠ i) :
    mapLookup (processMap s basePath w dirs acc) i = mapLookup acc i := by
  induction dirs generalizing acc with
  | nil => rfl
  | cons d dirs ih =>
    rw [processMap_cons, ih _ (fun x hx => h x (List.mem_cons_of_mem _ hx))]
    cases hl : loadEndpoint s basePath w d with
    | none => rfl
    | some ep => exact insertCandidate_lookup_other _ _ _ _ _ (h d (by simp) ep hl)

/-- The entry of an id that two directories `A` (visited first) and `B` yield,
no other directory yielding it. -/
theorem processMap_two {σ : Type} {X : Ext} (s : Setup σ X) (basePath : GoString) (w : σ)
    (l1 l2 l3 : List GoString) (A B : GoString) (epA epB : Endpoint X)
    (hA : loadEndpoint s basePath w A = some epA)
    (hB : loadEndpoint s basePath w B = some epB)
    (hid : epB.ID = epA.ID)
    (hothers : ∀ d ∈ l1 ++ l2 ++ l3, ∀ ep,
      loadEndpoint s basePath w d = some ep → ep.ID ≠ epA.ID) :
    mapLookup (processMap s basePath w (l1 ++ A :: (l2 ++ B :: l3)) []) epA.ID
      = some (if hasSuffix (s.methods.DirectoryPath epB) B then epB else epA) := by
  have h1 : ∀ d ∈ l1, ∀ ep, loadEndpoint s basePath w d = some ep → ep.ID ≠ epA.ID :=
    fun d hd => hothers d (by simp [hd])
  have h2 : ∀ d ∈ l2, ∀ ep, loadEndpoint s basePath w d = some ep → ep.ID ≠ epA.ID :=
    fun d hd => hothers d (by simp [hd])
  have h3 : ∀ d ∈ l3, ∀ ep, loadEndpoint s basePath w d = some ep → ep.ID ≠ epA.ID :=
    fun d hd => hothers d (by simp [hd])
  rw [processMap_append, processMap_cons, processMap_append, processMap_cons, hA, hB]
  simp only []
  rw [processMap_lookup_other _ _ _ _ _ _ h3]
  have e1 : mapLookup (processMap s basePath w l1 []) epA.ID = none := by
    rw [processMap_lookup_other _ _ _ _ _ _ h1]
    rfl
  have e2 : mapLookup (insertCandidate s.methods (processMap s basePath w l1 []) A epA) epA.ID
      = some epA := insertCandidate_lookup_new _ _ _ _ e1
  have e3 : mapLookup (processMap s basePath w l2
      (insertCandidate s.methods (processMap s basePath w l1 []) A epA)) epA.ID = some epA := by
    rw [processMap_lookup_other _ _ _ _ _ _ h2, e2]
  have e4 := insertCandidate_lookup_old s.methods _ B epB epA (by rw [hid]; exact e3)
  rw [hid] at e4
  exact e4

theorem eq_singleton_of_nodup (c : List GoString) (x : GoString) (hnd : c.Nodup)
    (hmem : ∀ n, n ∈ c ↔ n = x) : c = [x] := by
  cases c with
  | nil => exact absurd ((hmem x).mpr rfl) (by simp)
  | cons a t =>
    have ha : a = x := (hmem a).mp (by simp)
    subst ha
    cases t with
    | nil => rfl
    | cons b t =>
      have hb : b = a := (hmem b).mp (by simp)
      subst hb
      simp at hnd

theorem not_leftover_base (s1 s2 : GoString) (h1 : s1 ≠ []) (h2 : s2 ≠ [])
    (names : List GoString) (x suff : GoString) (hsuff : suff = s1 ∨ suff = s2)
    (hnames : ∀ n, n ∈ names ↔ n = x ∨ n = x ++ suff) : ¬ IsLeftover s1 s2 names x := by
  rintro ⟨t, ht, hsuf, hmem⟩
  have htne : t ≠ [] := by rcases ht with rfl | rfl <;> assumption
  have hsne : suff ≠ [] := by rcases hsuff with rfl | rfl <;> assumption
  have htpos : 0 < t.length := List.length_pos.mpr htne
  have hspos : 0 < suff.length := List.length_pos.mpr hsne
  have hle : t.length ≤ x.length := by
    simp only [hasSuffix, Bool.and_eq_true, decide_eq_true_eq] at hsuf
    exact hsuf.1
  have hlen : (x.take (x.length - t.length)).length = x.length - t.length := by
    simp
  rcases (hnames _).mp hmem with h | h
  · rw [h] at hlen
    omega
  · rw [h] at hlen
    simp at hlen
    omega

/-- C7 as stated fails: the directories `17` and `7` both hold an endpoint of id
17, whose recorded directory path is `/s/17`, the path of the directory `17` and
not of `7`. Both names are suffixes of that path, so the directory visited last
replaces the other: visited in the order `17`, `7` the entry is taken from `7`,
in the order `7`, `17` from `17`. The directory named by the recorded path does
not win regardless of the order. -/
theorem readEPs_duplicate_id_counterexample :
    decimalMethods.DirectoryPath (testEndpoint 17 (ascii "a"))
      = testOS.join (ascii "/s") (ascii "17") ∧
    decimalMethods.DirectoryPath (testEndpoint 17 (ascii "b"))
      ≠ testOS.join (ascii "/s") (ascii "7") ∧
    hasSuffix (decimalMethods.DirectoryPath (testEndpoint 17 (ascii "a"))) (ascii "17") = true ∧
    hasSuffix (decimalMethods.DirectoryPath (testEndpoint 17 (ascii "b"))) (ascii "7") = true ∧
    summary (ReadEPsFromDirNames decimalSetup
      ⟨ascii "/s", [(ascii "/s/17/ep_config.json", ascii "17a"),
        (ascii "/s/7/ep_config.json", ascii "17b")]⟩
      (ascii "/s") [ascii "17", ascii "7"]).possibleEPs = [(17, 17, ascii "b")] ∧
    summary (ReadEPsFromDirNames decimalSetup
      ⟨ascii "/s", [(ascii "/s/17/ep_config.json", ascii "17a"),
        (ascii "/s/7/ep_config.json", ascii "17b")]⟩
      (ascii "/s") [ascii "7", ascii "17"]).possibleEPs = [(17, 17, ascii "a")] := by
  decide

/-- C7, amended: when two processed directories `A` (visited first) and `B` yield
endpoints of one id (and no other directory yields that id), the result holds
exactly one entry for the id, decided by whether each directory name is a suffix
of its endpoint's `DirectoryPath` (the test `strings.HasSuffix` of the code): a
directory whose name is a suffix wins when the other one's is not, whichever of
the two is visited first; when neither name is a suffix the first one visited
wins; when both names are suffixes the second one visited wins. And for the two
directories `X` and `X + suffix`, where `X` yields an endpoint, the result is the
single entry of that endpoint, taken from `X`. The directories are read in the
world left by the cleanup. -/
theorem readEPs_duplicate_id {σ : Type} {X : Ext} (s : Setup σ X) (w : σ)
    (basePath : GoString) :
    (∀ (names l1 l2 l3 : List GoString) (A B : GoString) (epA epB : Endpoint X),
      (partitionEPDirNamesByRestoreStatus s.ord s.nextDirectorySuffix
        s.nextFailedDirectorySuffix names).1 = l1 ++ A :: (l2 ++ B :: l3) →
      loadEndpoint s basePath (ReadEPsFromDirNames s w basePath names).world A = some epA →
      loadEndpoint s basePath (ReadEPsFromDirNames s w basePath names).world B = some epB →
      epB.ID = epA.ID →
      (∀ d ∈ l1 ++ l2 ++ l3, ∀ ep,
        loadEndpoint s basePath (ReadEPsFromDirNames s w basePath names).world d = some ep →
        ep.ID ≠ epA.ID) →
      (hasSuffix (s.methods.DirectoryPath epA) A = true →
        hasSuffix (s.methods.DirectoryPath epB) B = false →
        (ReadEPsFromDirNames s w basePath names).possibleEPs.filter
          (fun p => decide (p.1 = epA.ID)) = [(epA.ID, epA)]) ∧
      (hasSuffix (s.methods.DirectoryPath epA) A = false →
        hasSuffix (s.methods.DirectoryPath epB) B = true →
        (ReadEPsFromDirNames s w basePath names).possibleEPs.filter
          (fun p => decide (p.1 = epA.ID)) = [(epA.ID, epB)]) ∧
      (hasSuffix (s.methods.DirectoryPath epA) A = false →
        hasSuffix (s.methods.DirectoryPath epB) B = false →
        (ReadEPsFromDirNames s w basePath names).possibleEPs.filter
          (fun p => decide (p.1 = epA.ID)) = [(epA.ID, epA)]) ∧
      (hasSuffix (s.methods.DirectoryPath epA) A = true →
        hasSuffix (s.methods.DirectoryPath epB) B = true →
        (ReadEPsFromDirNames s w basePath names).possibleEPs.filter
          (fun p => decide (p.1 = epA.ID)) = [(epA.ID, epB)])) ∧
    (ValidOrder s.ord → s.nextDirectorySuffix ≠ [] → s.nextFailedDirectorySuffix ≠ [] →
      ∀ (names : List GoString) (x suff : GoString) (ep : Endpoint X),
      (suff = s.nextDirectorySuffix ∨ suff = s.nextFailedDirectorySuffix) →
      (∀ n, n ∈ names ↔ n = x ∨ n = x ++ suff) →
      loadEndpoint s basePath (ReadEPsFromDirNames s w basePath names).world x = some ep →
      (ReadEPsFromDirNames s w basePath names).possibleEPs = [(ep.ID, ep)]) := by
  constructor
  · intro names l1 l2 l3 A B epA epB hc hA hB hid hothers
    have hlook := processMap_two s basePath (ReadEPsFromDirNames s w basePath names).world
      l1 l2 l3 A B epA epB hA hB hid hothers
    rw [← hc, ← readEPs_possibleEPs] at hlook
    have hkeys : ((ReadEPsFromDirNames s w basePath names).possibleEPs.map Prod.fst).Nodup := by
      rw [readEPs_possibleEPs]
      exact (processMap_keys s basePath _ _ [] (by simp) (by simp)).2
    have hfilter := filter_key_eq _ _ _ hkeys hlook
    refine ⟨?_, ?_, ?_, ?_⟩
    · intro _ hb
      rw [hfilter, hb]
      rfl
    · intro _ hb
      rw [hfilter, hb]
      rfl
    · intro _ hb
      rw [hfilter, hb]
      rfl
    · intro _ hb
      rw [hfilter, hb]
      rfl
  · intro hord h1 h2 names x suff ep hsuff hnames hload
    have hfst := mem_partition_fst s.ord hord s.nextDirectorySuffix
      s.nextFailedDirectorySuffix names
    have hnd := (nodup_partition s.ord hord s.nextDirectorySuffix
      s.nextFailedDirectorySuffix names).1
    have hc : (partitionEPDirNamesByRestoreStatus s.ord s.nextDirectorySuffix
        s.nextFailedDirectorySuffix names).1 = [x] := by
      apply eq_singleton_of_nodup _ _ hnd
      intro n
      rw [hfst]
      constructor
      · rintro ⟨hn, hnot⟩
        rcases (hnames n).mp hn with h | h
        · exact h
        · exfalso
          apply hnot
          rw [h]
          exact ⟨suff, hsuff, hasSuffix_append x suff, by
            rw [take_append_suffix]
            exact (hnames x).mpr (Or.inl rfl)⟩
      · rintro rfl
        exact ⟨(hnames n).mpr (Or.inl rfl),
          not_leftover_base _ _ h1 h2 names n suff hsuff hnames⟩
    rw [readEPs_possibleEPs, hc, processMap_cons, hload]
    rfl

/-- C7 amended, at concrete inputs: the directories `7` and `6` both hold an
endpoint of id 7, of whose directory path `/s/7` only the name `7` is a suffix,
in either visiting order; the directories `7` and `7_next`; and the directories
`17` and `7` both holding an endpoint of id 17, where both names are suffixes of
`/s/17` and the second one visited wins. -/
theorem readEPs_duplicate_id_witness :
    (ReadEPsFromDirNames testSetup
      ⟨ascii "/s", [(ascii "/s/7/ep_config.json", ascii "7a"),
        (ascii "/s/6/ep_config.json", ascii "7b")]⟩
      (ascii "/s") [ascii "7", ascii "6"]).possibleEPs.filter (fun p => decide (p.1 = 7))
      = [(7, testEndpoint 7 (ascii "a"))] ∧
    (ReadEPsFromDirNames testSetup
      ⟨ascii "/s", [(ascii "/s/7/ep_config.json", ascii "7a"),
        (ascii "/s/6/ep_config.json", ascii "7b")]⟩
      (ascii "/s") [ascii "6", ascii "7"]).possibleEPs.filter (fun p => decide (p.1 = 7))
      = [(7, testEndpoint 7 (ascii "a"))] ∧
    (ReadEPsFromDirNames testSetup
      ⟨ascii "/s", [(ascii "/s/7/ep_config.json", ascii "7a"),
        (ascii "/s/7_next/ep_config.json", ascii "7b")]⟩
      (ascii "/s") [ascii "7", ascii "7_next"]).possibleEPs
      = [(7, testEndpoint 7 (ascii "a"))] ∧
    (ReadEPsFromDirNames decimalSetup
      ⟨ascii "/s", [(ascii "/s/17/ep_config.json", ascii "17a"),
        (ascii "/s/7/ep_config.json", ascii "17b")]⟩
      (ascii "/s") [ascii "17", ascii "7"]).possibleEPs.filter (fun p => decide (p.1 = 17))
      = [(17, testEndpoint 17 (ascii "b"))] := by
  have h3 := readEPs_duplicate_id decimalSetup
    ⟨ascii "/s", [(ascii "/s/17/ep_config.json", ascii "17a"),
      (ascii "/s/7/ep_config.json", ascii "17b")]⟩ (ascii "/s")
  have h := readEPs_duplicate_id testSetup
    ⟨ascii "/s", [(ascii "/s/7/ep_config.json", ascii "7a"),
      (ascii "/s/6/ep_config.json", ascii "7b")]⟩ (ascii "/s")
  have h2 := readEPs_duplicate_id testSetup
    ⟨ascii "/s", [(ascii "/s/7/ep_config.json", ascii "7a"),
      (ascii "/s/7_next/ep_config.json", ascii "7b")]⟩ (ascii "/s")
  refine ⟨?_, ?_, ?_, ?_⟩
  · exact (h.1 [ascii "7", ascii "6"] [] [] [] (ascii "7") (ascii "6")
      (testEndpoint 7 (ascii "a")) (testEndpoint 7 (ascii "b"))
      (by decide) rfl rfl rfl (by simp)).1 (by decide) (by decide)
  · exact (h.1 [ascii "6", ascii "7"] [] [] [] (ascii "6") (ascii "7")
      (testEndpoint 7 (ascii "b")) (testEndpoint 7 (ascii "a"))
      (by decide) rfl rfl rfl (by simp)).2.1 (by decide) (by decide)
  · exact h2.2 validOrder_id (by decide) (by decide) [ascii "7", ascii "7_next"]
      (ascii "7") sampleNext (testEndpoint 7 (ascii "a")) (Or.inl rfl)
      (by intro n; simp [sampleNext]; rfl) rfl
  · exact (h3.1 [ascii "17", ascii "7"] [] [] [] (ascii "17") (ascii "7")
      (testEndpoint 17 (ascii "a")) (testEndpoint 17 (ascii "b"))
      (by decide) rfl rfl rfl (by simp)).2.2.2 (by decide) (by decide)

/-- C8 as stated fails: with the directories `7` (no state) and `7_next` (state
of endpoint 7), the call returns the empty map, because `7_next` is classified
incomplete and `7` is skipped; on the list with the failing directory `7`
removed, `7_next` is complete and the call returns endpoint 7. -/
theorem readEPs_removed_counterexample :
    summary (ReadEPsFromDirNames testSetup
      ⟨ascii "/s", [(ascii "/s/7_next/ep_config.json", ascii "7b")]⟩
      (ascii "/s") [ascii "7", ascii "7_next"]).possibleEPs = [] ∧
    findEndpointState testOS ⟨ascii "/s", [(ascii "/s/7_next/ep_config.json", ascii "7b")]⟩
      sampleStateFile sampleHeaderFile samplePrefix (testJoin (ascii "/s") (ascii "7"))
      = .error (.pathError true 2) ∧
    summary (ReadEPsFromDirNames testSetup
      ⟨ascii "/s", [(ascii "/s/7_next/ep_config.json", ascii "7b")]⟩
      (ascii "/s") [ascii "7_next"]).possibleEPs = [(7, 7, ascii "b")] := by
  decide

/-- C8, amended: `ReadEPsFromDirNames` always returns; a directory of the complete
list whose state cannot be found or fails to parse is skipped (the map is left as
it was), and the returned mapping is the one obtained by running the loop over
only those directories of the complete list whose state is found and parses, the
complete list being the one of the full input; every entry of the returned
mapping is keyed by the id of the endpoint it holds, and no key occurs twice. -/
theorem readEPs_skips_failures {σ : Type} {X : Ext} (s : Setup σ X) (w : σ)
    (basePath : GoString) (names : List GoString) :
    (∀ (acc : LoopState X) (d : GoString),
      (∀ state, findEndpointState s.os (ReadEPsFromDirNames s w basePath names).world
          s.EndpointStateFileName s.CHeaderFileName s.ciliumCHeaderPrefix
          (s.os.join basePath d) = .ok state → ∃ err, s.ParseEndpoint state = .error err) →
      (restoreStep s basePath (ReadEPsFromDirNames s w basePath names).world acc d).possibleEPs
        = acc.possibleEPs ∧
      (restoreStep s basePath (ReadEPsFromDirNames s w basePath names).world acc d).hostEndpointID
        = acc.hostEndpointID) ∧
    (ReadEPsFromDirNames s w basePath names).possibleEPs =
      (((partitionEPDirNamesByRestoreStatus s.ord s.nextDirectorySuffix
          s.nextFailedDirectorySuffix names).1.filter
          (fun d => (loadEndpoint s basePath
            (ReadEPsFromDirNames s w basePath names).world d).isSome)).foldl
        (restoreStep s basePath (ReadEPsFromDirNames s w basePath names).world)
        { possibleEPs := [], hostEndpointID := none, log := [] }).possibleEPs ∧
    (∀ p ∈ (ReadEPsFromDirNames s w basePath names).possibleEPs, p.1 = p.2.ID) ∧
    ((ReadEPsFromDirNames s w basePath names).possibleEPs.map Prod.fst).Nodup := by
  refine ⟨?_, ?_, ?_, ?_⟩
  · intro acc d hfail
    cases h : findEndpointState s.os (ReadEPsFromDirNames s w basePath names).world
        s.EndpointStateFileName s.CHeaderFileName s.ciliumCHeaderPrefix
        (s.os.join basePath d) with
    | error err => simp [restoreStep, h]
    | ok state =>
      obtain ⟨err, herr⟩ := hfail state h
      simp [restoreStep, h, herr]
  · rw [foldl_restoreStep_possibleEPs, readEPs_possibleEPs]
    exact processMap_filter _ _ _ _ _
  · rw [readEPs_possibleEPs]
    exact (processMap_keys s basePath _ _ [] (by simp) (by simp)).1
  · rw [readEPs_possibleEPs]
    exact (processMap_keys s basePath _ _ [] (by simp) (by simp)).2

/-- C8 amended, at a concrete input: the directory `9` has no state and `8` holds
a state that does not parse; both are skipped. -/
theorem readEPs_skips_failures_witness :
    summary (ReadEPsFromDirNames testSetup
      ⟨ascii "/s", [(ascii "/s/7/ep_config.json", ascii "7a"),
        (ascii "/s/8/ep_config.json", [])]⟩
      (ascii "/s") [ascii "9", ascii "7", ascii "8"]).possibleEPs = [(7, 7, ascii "a")] ∧
    (restoreStep testSetup (ascii "/s")
      (ReadEPsFromDirNames testSetup
        ⟨ascii "/s", [(ascii "/s/7/ep_config.json", ascii "7a"),
          (ascii "/s/8/ep_config.json", [])]⟩
        (ascii "/s") [ascii "9", ascii "7", ascii "8"]).world
      { possibleEPs := [], hostEndpointID := none, log := [] } (ascii "8")).possibleEPs = [] := by
  have h := readEPs_skips_failures testSetup
    ⟨ascii "/s", [(ascii "/s/7/ep_config.json", ascii "7a"), (ascii "/s/8/ep_config.json", [])]⟩
    (ascii "/s") [ascii "9", ascii "7", ascii "8"]
  refine ⟨?_, ?_⟩
  · rw [h.2.1]
    decide
  · refine (h.1 { possibleEPs := [], hostEndpointID := none, log := [] } (ascii "8") ?_).1
    intro state hstate
    have hs : state = [] := by
      have h8 : findEndpointState testSetup.os
          (ReadEPsFromDirNames testSetup
            ⟨ascii "/s", [(ascii "/s/7/ep_config.json", ascii "7a"),
              (ascii "/s/8/ep_config.json", [])]⟩
            (ascii "/s") [ascii "9", ascii "7", ascii "8"]).world
          testSetup.EndpointStateFileName testSetup.CHeaderFileName testSetup.ciliumCHeaderPrefix
          (testSetup.os.join (ascii "/s") (ascii "8")) = .ok [] := by decide
      rw [h8] at hstate
      cases hstate
      rfl
    subst hs
    exact ⟨.other 1, rfl⟩

theorem removeIncompleteStep_world {σ : Type} {X : Ext} (s : Setup σ X) (basePath : GoString)
    (acc : σ × List LogEntry) (d : GoString) :
    (removeIncompleteStep s basePath acc d).1 = (s.os.removeAll acc.1 d).1 := by
  unfold removeIncompleteStep
  rcases h : s.os.removeAll acc.1 d with ⟨w2, _ | err⟩ <;> rfl

theorem foldl_removeIncompleteStep_world {σ : Type} {X : Ext} (s : Setup σ X)
    (basePath : GoString) (dirs : List GoString) (acc : σ × List LogEntry) :
    (dirs.foldl (removeIncompleteStep s basePath) acc).1
      = dirs.foldl (fun w d => (s.os.removeAll w d).1) acc.1 := by
  induction dirs generalizing acc with
  | nil => rfl
  | cons d dirs ih => simp only [List.foldl_cons, ih, removeIncompleteStep_world]

/-- The world left by `ReadEPsFromDirNames`: `os.RemoveAll` has been called on the
bare name of every incomplete directory, whatever the base path. -/
theorem readEPs_world {σ : Type} {X : Ext} (s : Setup σ X) (w : σ)
    (basePath : GoString) (names : List GoString) :
    (ReadEPsFromDirNames s w basePath names).world
      = (partitionEPDirNamesByRestoreStatus s.ord s.nextDirectorySuffix
          s.nextFailedDirectorySuffix names).2.foldl (fun w d => (s.os.removeAll w d).1) w := by
  simp only [ReadEPsFromDirNames, foldl_removeIncompleteStep_world]

/-- C3, the code at the failing input: with base path `/s`, working directory `/`
and the directories `7` and `7_next`, the directory `7_next` is classified
incomplete and announced as `/s/7_next`, but `os.RemoveAll` is called with the
bare name `7_next`, which resolves against the working directory: the files under
`/s/7_next` are still there after the call. With `/s` as the working directory
they are removed. -/
theorem readEPs_cleanup_path :
    (partitionEPDirNamesByRestoreStatus id sampleNext sampleNextFail
      [ascii "7", ascii "7_next"]).2 = [ascii "7_next"] ∧
    (ReadEPsFromDirNames testSetup
      ⟨ascii "/", [(ascii "/s/7/ep_config.json", ascii "7a"),
        (ascii "/s/7_next/ep_config.json", ascii "7b")]⟩
      (ascii "/s") [ascii "7", ascii "7_next"]).world.files
      = [(ascii "/s/7/ep_config.json", ascii "7a"),
         (ascii "/s/7_next/ep_config.json", ascii "7b")] ∧
    (ReadEPsFromDirNames testSetup
      ⟨ascii "/", [(ascii "/s/7/ep_config.json", ascii "7a"),
        (ascii "/s/7_next/ep_config.json", ascii "7b")]⟩
      (ascii "/s") [ascii "7", ascii "7_next"]).log
      = [LogEntry.foundIncomplete (ascii "/s/7_next") (ascii "7_next")] ∧
    (ReadEPsFromDirNames testSetup
      ⟨ascii "/s", [(ascii "/s/7/ep_config.json", ascii "7a"),
        (ascii "/s/7_next/ep_config.json", ascii "7b")]⟩
      (ascii "/s") [ascii "7", ascii "7_next"]).world.files
      = [(ascii "/s/7/ep_config.json", ascii "7a")] := by
  decide

/-! ## Theorems: identity restorer -/

/-- C9: if, when the first `select` of `restoreIdentity` is resolved, the alive
context has been cancelled and the identity allocation has not completed, the
function returns, with `ErrNotAlive` (or, when `rlockAlive` already refused the
endpoint, with that error); on that path it calls neither `setState` nor
`SetIdentity`, and the endpoint, its identity and state included, is unchanged. -/
theorem restoreIdentity_cancelled {X : Ext} (c : Collaborators X) (e : Endpoint X)
    (hdone : (c.allocateIdentity (c.filterLabels e.labels)).aliveDone = true)
    (hnot : (c.allocateIdentity (c.filterLabels e.labels)).completed = none) :
    ∃ r, restoreIdentity c e = some r ∧
      (c.rlockAlive e = none → r.err = some GoError.errNotAlive) ∧
      (∀ err, c.rlockAlive e = some err → r.err = some err) ∧
      (∀ ev ∈ r.trace, ev.commits = false) ∧
      Event.setState State.StateRestoring ∉ r.trace ∧
      r.ep = e ∧ r.ep.SecurityIdentity = e.SecurityIdentity ∧ r.ep.state = e.state := by
  cases hr : c.rlockAlive e with
  | some err =>
    refine ⟨{ err := some err, ep := e, trace := [.logDisconnectedMutexAction err] },
      by simp [restoreIdentity, hr], ?_⟩
    simp [Event.commits]
  | none =>
    have hsel : goSelect (c.allocateIdentity (c.filterLabels e.labels)) = some .aliveDone := by
      simp [goSelect, hdone, hnot]
    refine ⟨⟨some .errNotAlive, e,
        [.rlockAlive, .runlock, .updateController (.restoringEpIdentity e.ID)]⟩,
      by simp only [restoreIdentity, hr, hsel], ?_⟩
    simp [Event.commits]

/-- C9 at a concrete input: the endpoint is cancelled while the allocation is
still pending. -/
theorem restoreIdentity_cancelled_witness :
    ∃ r, restoreIdentity
        (testCollaborators { aliveDone := true, completed := none, pickAlive := false })
        (testEndpoint 7 []) = some r ∧
      r.err = some GoError.errNotAlive ∧ r.ep = testEndpoint 7 [] := by
  obtain ⟨r, h1, h2, _, _, _, h3, _⟩ := restoreIdentity_cancelled
    (testCollaborators { aliveDone := true, completed := none, pickAlive := false })
    (testEndpoint 7 []) rfl rfl
  exact ⟨r, h1, h2 rfl, h3⟩

/-- C10: when `restoreIdentity` reaches the commit (the allocation gave `id`, the
waits and the fence passed and `lockAlive` granted the exclusive lock), it
returns nil, and between taking and releasing the lock it sleeps for
`IdentityChangeGracePeriod` exactly once, before `SetIdentity`, when the
endpoint's previous identity has a numeric id other than that of `id`, and does
not sleep when the numeric ids are equal (or there is no previous identity); in
every case `SetIdentity(id, true)` is called exactly once and the lock is
released right after it, as the last call. -/
theorem restoreIdentity_grace_period {X : Ext} (c : Collaborators X) (e : Endpoint X)
    (id : Identity X)
    (hr : c.rlockAlive e = none)
    (halloc : goSelect (c.allocateIdentity (c.filterLabels e.labels)) = some (.completed id))
    (hglobal : (!c.IsFixed id && !c.IsWellKnown id) = true →
      goSelect c.initialGlobalIdentities = some (.completed ()))
    (hfence : c.WaitForFence = none)
    (hlock : c.lockAlive e = none) :
    ∃ r, restoreIdentity c e = some r ∧ r.err = none ∧
      (∀ old, e.SecurityIdentity = some old → old.ID ≠ id.ID →
        r.trace.filter Event.inCommit
          = [.lockAlive, .sleep c.IdentityChangeGracePeriod, .setIdentity id true, .unlock]) ∧
      (∀ old, e.SecurityIdentity = some old → old.ID = id.ID →
        r.trace.filter Event.inCommit = [.lockAlive, .setIdentity id true, .unlock]) ∧
      (e.SecurityIdentity = none →
        r.trace.filter Event.inCommit = [.lockAlive, .setIdentity id true, .unlock]) ∧
      (∃ pre, r.trace = pre ++ [.setIdentity id true, .unlock]) ∧
      r.ep.SecurityIdentity = some id ∧ r.ep.state = State.StateRestoring := by
  have hcommit : ∀ t : List (Event X), t.filter Event.inCommit = [] →
      (restoreIdentityCommit c e id t).err = none ∧
      (∀ old, e.SecurityIdentity = some old → old.ID ≠ id.ID →
        (restoreIdentityCommit c e id t).trace.filter Event.inCommit
          = [.lockAlive, .sleep c.IdentityChangeGracePeriod, .setIdentity id true, .unlock]) ∧
      (∀ old, e.SecurityIdentity = some old → old.ID = id.ID →
        (restoreIdentityCommit c e id t).trace.filter Event.inCommit
          = [.lockAlive, .setIdentity id true, .unlock]) ∧
      (e.SecurityIdentity = none →
        (restoreIdentityCommit c e id t).trace.filter Event.inCommit
          = [.lockAlive, .setIdentity id true, .unlock]) ∧
      (∃ pre, (restoreIdentityCommit c e id t).trace = pre ++ [.setIdentity id true, .unlock]) ∧
      (restoreIdentityCommit c e id t).ep.SecurityIdentity = some id ∧
      (restoreIdentityCommit c e id t).ep.state = State.StateRestoring := by
    intro t ht
    refine ⟨by simp [restoreIdentityCommit, hfence, hlock], ?_, ?_, ?_, ?_, ?_, ?_⟩
    · intro old hold hne
      simp [restoreIdentityCommit, hfence, hlock, setState, hold, Ne.symm hne,
        List.filter_append, ht, List.filter_cons, Event.inCommit]
    · intro old hold heq
      simp [restoreIdentityCommit, hfence, hlock, setState, hold, heq,
        List.filter_append, ht, List.filter_cons, Event.inCommit]
    · intro hnone
      simp [restoreIdentityCommit, hfence, hlock, setState, hnone,
        List.filter_append, ht, List.filter_cons, Event.inCommit]
    · simp only [restoreIdentityCommit, hfence, hlock]
      exact ⟨_, rfl⟩
    · simp [restoreIdentityCommit, hfence, hlock, SetIdentity]
    · simp [restoreIdentityCommit, hfence, hlock, SetIdentity, setState]
  cases hfix : (!c.IsFixed id && !c.IsWellKnown id) with
  | true =>
    refine ⟨restoreIdentityCommit c e id
        ([.rlockAlive, .runlock, .updateController (.restoringEpIdentity e.ID)] ++
          [.updateController (.waitingInitialGlobalIdentities e.ID)]),
      by simp only [restoreIdentity, hr, halloc, hfix, if_true, hglobal hfix], ?_⟩
    exact hcommit _ (by simp [List.filter_cons, Event.inCommit])
  | false =>
    refine ⟨restoreIdentityCommit c e id
        [.rlockAlive, .runlock, .updateController (.restoringEpIdentity e.ID)],
      by simp only [restoreIdentity, hr, halloc, hfix, Bool.false_eq_true, if_false], ?_⟩
    exact hcommit _ (by simp [List.filter_cons, Event.inCommit])

/-- C10 at concrete inputs: an endpoint restored with identity 1000 is allocated
identity 2000 (one sleep of 5), and is allocated identity 1000 again (no sleep). -/
theorem restoreIdentity_grace_period_witness :
    (∃ r, restoreIdentity
        (testCollaborators ⟨false, some ⟨2000, (0 : Nat)⟩, false⟩)
        { testEndpoint 7 [] with SecurityIdentity := some ⟨1000, (0 : Nat)⟩ } = some r ∧
      r.trace.filter Event.inCommit
        = [.lockAlive, .sleep 5, .setIdentity ⟨2000, (0 : Nat)⟩ true, .unlock]) ∧
    (∃ r, restoreIdentity
        (testCollaborators ⟨false, some ⟨1000, (0 : Nat)⟩, false⟩)
        { testEndpoint 7 [] with SecurityIdentity := some ⟨1000, (0 : Nat)⟩ } = some r ∧
      r.trace.filter Event.inCommit
        = [.lockAlive, .setIdentity ⟨1000, (0 : Nat)⟩ true, .unlock]) := by
  constructor
  · obtain ⟨r, h1, _, h2, _⟩ := restoreIdentity_grace_period
      (testCollaborators ⟨false, some ⟨2000, (0 : Nat)⟩, false⟩)
      { testEndpoint 7 [] with SecurityIdentity := some ⟨1000, (0 : Nat)⟩ }
      ⟨2000, (0 : Nat)⟩ rfl rfl (fun _ => rfl) rfl rfl
    exact ⟨r, h1, h2 ⟨1000, (0 : Nat)⟩ rfl (by decide)⟩
  · obtain ⟨r, h1, _, _, h2, _⟩ := restoreIdentity_grace_period
      (testCollaborators ⟨false, some ⟨1000, (0 : Nat)⟩, false⟩)
      { testEndpoint 7 [] with SecurityIdentity := some ⟨1000, (0 : Nat)⟩ }
      ⟨1000, (0 : Nat)⟩ rfl rfl (fun _ => rfl) rfl rfl
    exact ⟨r, h1, h2 ⟨1000, (0 : Nat)⟩ rfl rfl⟩

/-! ## Theorems: the legacy header path of the state loader -/

theorem findEndpointState_two_colons_sample :
    findEndpointState testOS ⟨ascii "/", [(ascii "/s/7/ep_config.h",
        ascii "/*\n * CILIUM_BASE64_:e30=:e30=\n */\n")]⟩
      sampleStateFile sampleHeaderFile samplePrefix (ascii "/s/7")
      = .error (.invalidFormat (ascii " * CILIUM_BASE64_:e30=:e30=\n")) ∧
    appendDecode (afterFirstColon (ascii " * CILIUM_BASE64_:e30=:e30=\n"))
      = .error .corruptInput := by
  decide

theorem findEndpointState_faulty_sample :
    findEndpointState (faultyOS (.pathError false 13) [] .eof) ()
      sampleStateFile sampleHeaderFile samplePrefix (ascii "/s/7")
      = .error (.pathError false 13) ∧
    findEndpointState (faultyOS (.pathError true 2) (ascii "/*\n") (.other 5)) ()
      sampleStateFile sampleHeaderFile samplePrefix (ascii "/s/7")
      = .error (.other 5) ∧
    findEndpointState (faultyOS (.pathError true 2) (ascii "/*\n */\n") .eof) ()
      sampleStateFile sampleHeaderFile samplePrefix (ascii "/s/7")
      = .error .errNotExist := by
  decide

theorem bytesSplit_length (sep : Byte) (s : GoString) :
    (bytesSplit sep s).length = s.count sep + 1 := by
  induction s with
  | nil => rfl
  | cons b bs ih =>
    by_cases h : b = sep
    · subst h
      simp [bytesSplit, ih]
    · have hne : (b == sep) = false := by simpa using h
      cases hs : bytesSplit sep bs with
      | nil => simp [hs] at ih
      | cons p ps =>
        rw [hs] at ih
        simp only [bytesSplit, h, if_false, hs, List.length_cons, List.count_cons, hne] at ih ⊢
        simpa using ih

theorem bytesSplit_second (s : GoString) (h : s.count 58 = 1) :
    (bytesSplit 58 s).getD 1 [] = afterFirstColon s := by
  induction s with
  | nil => simp at h
  | cons b bs ih =>
    by_cases hb : b = 58
    · subst hb
      have hbs : (58 : Byte) ∉ bs := by
        intro hmem
        have := List.count_pos_iff.mpr hmem
        simp at h
        omega
      simp [bytesSplit, afterFirstColon, bytesSplit_no_sep 58 bs hbs]
    · have hne : (b == 58) = false := by simpa using hb
      have hc : bs.count 58 = 1 := by simpa [List.count_cons, hne] using h
      have ih2 := ih hc
      cases hs : bytesSplit 58 bs with
      | nil =>
        have := bytesSplit_length 58 bs
        rw [hs] at this
        simp at this
      | cons p ps =>
        rw [hs] at ih2
        simp only [bytesSplit, hb, if_false, hs, afterFirstColon]
        simpa using ih2

theorem scanHeader_none (pfx : GoString) (endErr : GoError) (L : List GoString)
    (h : ∀ l ∈ L, bytesContains l pfx = false) :
    scanHeader pfx endErr L = scanHeader pfx endErr [] := by
  have := scanHeader_skip pfx endErr L [] h
  simpa using this

/-- C11 as stated fails: the first line of the header that contains the marker is
` * CILIUM_BASE64_:e30=:e30=`, with a further colon after the first; the loader
returns an invalid-format error naming the line, not the result of
base64-decoding everything after the first colon (a corrupt-input error). -/
theorem findEndpointState_colons_counterexample :
    testOS.readFile ⟨ascii "/", [(ascii "/s/7/ep_config.h",
        ascii "/*\n * CILIUM_BASE64_:e30=:e30=\n */\n")]⟩
      (testOS.join (ascii "/s/7") sampleStateFile) = .error (.pathError true 2) ∧
    scanHeader samplePrefix .eof (readAllLines (ascii "/*\n * CILIUM_BASE64_:e30=:e30=\n */\n")).1
      = .ok (ascii " * CILIUM_BASE64_:e30=:e30=\n") ∧
    afterFirstColon (ascii " * CILIUM_BASE64_:e30=:e30=\n") = ascii "e30=:e30=\n" ∧
    findEndpointState testOS ⟨ascii "/", [(ascii "/s/7/ep_config.h",
        ascii "/*\n * CILIUM_BASE64_:e30=:e30=\n */\n")]⟩
      sampleStateFile sampleHeaderFile samplePrefix (ascii "/s/7")
      = .error (.invalidFormat (ascii " * CILIUM_BASE64_:e30=:e30=\n")) ∧
    findEndpointState testOS ⟨ascii "/", [(ascii "/s/7/ep_config.h",
        ascii "/*\n * CILIUM_BASE64_:e30=:e30=\n */\n")]⟩
      sampleStateFile sampleHeaderFile samplePrefix (ascii "/s/7")
      ≠ appendDecode (afterFirstColon (ascii " * CILIUM_BASE64_:e30=:e30=\n")) := by
  decide

/-- C11, amended: a read error of the JSON state file other than not-exist is
returned as is. When the JSON state file is absent, an error of opening the
header file is returned as is; otherwise `findEndpointState` takes the first
newline-terminated line of the header file that contains the marker: when that
line holds exactly one colon it returns the base64 decoding of everything after
the colon, and when it holds no colon or further colons it returns an
invalid-format error naming the line. When no line contains the marker, reaching
the end of input returns the not-found error, and a read error met before that
is returned as is. -/
theorem findEndpointState_header_scan {σ : Type} (os : OS σ) (w : σ)
    (stateFile headerFile pfx dir : GoString) :
    (∀ err, os.readFile w (os.join dir stateFile) = .error err →
      errorsIsNotExist err = false →
      findEndpointState os w stateFile headerFile pfx dir = .error err) ∧
    (∀ err, os.readFile w (os.join dir stateFile) = .error err →
      errorsIsNotExist err = true →
      (∀ err2, os.openFile w (os.join dir headerFile) = .error err2 →
        findEndpointState os w stateFile headerFile pfx dir = .error err2) ∧
      (∀ content endErr, os.openFile w (os.join dir headerFile) = .ok (content, endErr) →
        (∀ (L1 : List GoString) (L : GoString) (L2 : List GoString),
          (readAllLines content).1 = L1 ++ L :: L2 →
          (∀ l ∈ L1, bytesContains l pfx = false) →
          bytesContains L pfx = true →
          (L.count 58 = 1 →
            findEndpointState os w stateFile headerFile pfx dir
              = appendDecode (afterFirstColon L)) ∧
          (L.count 58 ≠ 1 →
            findEndpointState os w stateFile headerFile pfx dir
              = .error (.invalidFormat L))) ∧
        ((∀ l ∈ (readAllLines content).1, bytesContains l pfx = false) →
          bytesContains (readAllLines content).2 pfx = false →
          (errorsIsEOF endErr = true →
            findEndpointState os w stateFile headerFile pfx dir = .error .errNotExist) ∧
          (errorsIsEOF endErr = false →
            findEndpointState os w stateFile headerFile pfx dir = .error endErr)))) := by
  constructor
  · intro err hread hne
    simp [findEndpointState, hread, hne]
  · intro err hread hne
    constructor
    · intro err2 hopen
      simp [findEndpointState, hread, hne, hopen]
    · intro content endErr hopen
      constructor
      · intro L1 L L2 hlines hskip hcont
        have hscan : scanHeader pfx endErr (readAllLines content).1 = .ok L := by
          rw [hlines, scanHeader_skip _ _ _ _ hskip]
          simp [scanHeader, hcont]
        have hlen := bytesSplit_length 58 L
        constructor
        · intro hone
          have h2 : (bytesSplit 58 L).length = 2 := by omega
          have hsec := bytesSplit_second L hone
          simp only [findEndpointState, hread, hne, hopen, hscan, h2, hsec, Bool.not_true,
            Bool.false_eq_true, if_false, ne_eq, not_true_eq_false]
        · intro hnot
          have h2 : (bytesSplit 58 L).length ≠ 2 := by omega
          simp [findEndpointState, hread, hne, hopen, hscan, h2]
      · intro hnone _
        have hscan := scanHeader_none pfx endErr _ hnone
        constructor
        · intro heof
          simp [findEndpointState, hread, hne, hopen, hscan, scanHeader, heof]
        · intro heof
          simp [findEndpointState, hread, hne, hopen, hscan, scanHeader, heof]

/-- C11 amended, at concrete inputs: a header whose marker line holds one colon
(decoded), one whose marker line holds two (invalid format), a JSON file that
cannot be read (permission error returned), a header without marker line (not
found) and a header stream that breaks (the read error returned). -/
theorem findEndpointState_header_scan_witness :
    findEndpointState testOS ⟨ascii "/", [(ascii "/s/7/ep_config.h",
        ascii "/*\n * CILIUM_BASE64_:e30=\n */\n")]⟩
      sampleStateFile sampleHeaderFile samplePrefix (ascii "/s/7") = .ok (ascii "\x7b\x7d") ∧
    findEndpointState testOS ⟨ascii "/", [(ascii "/s/7/ep_config.h",
        ascii "/*\n * CILIUM_BASE64_:e30=:e30=\n */\n")]⟩
      sampleStateFile sampleHeaderFile samplePrefix (ascii "/s/7")
      = .error (.invalidFormat (ascii " * CILIUM_BASE64_:e30=:e30=\n")) ∧
    findEndpointState (faultyOS (.pathError false 13) [] .eof) ()
      sampleStateFile sampleHeaderFile samplePrefix (ascii "/s/7")
      = .error (.pathError false 13) ∧
    findEndpointState (faultyOS (.pathError true 2) (ascii "/*\n */\n") .eof) ()
      sampleStateFile sampleHeaderFile samplePrefix (ascii "/s/7") = .error .errNotExist ∧
    findEndpointState (faultyOS (.pathError true 2) (ascii "/*\n") (.other 5)) ()
      sampleStateFile sampleHeaderFile samplePrefix (ascii "/s/7") = .error (.other 5) := by
  have hone := findEndpointState_header_scan testOS
    ⟨ascii "/", [(ascii "/s/7/ep_config.h", ascii "/*\n * CILIUM_BASE64_:e30=\n */\n")]⟩
    sampleStateFile sampleHeaderFile samplePrefix (ascii "/s/7")
  have htwo := findEndpointState_header_scan testOS
    ⟨ascii "/", [(ascii "/s/7/ep_config.h", ascii "/*\n * CILIUM_BASE64_:e30=:e30=\n */\n")]⟩
    sampleStateFile sampleHeaderFile samplePrefix (ascii "/s/7")
  have hdenied := findEndpointState_header_scan (faultyOS (.pathError false 13) [] .eof) ()
    sampleStateFile sampleHeaderFile samplePrefix (ascii "/s/7")
  have hnomark := findEndpointState_header_scan
    (faultyOS (.pathError true 2) (ascii "/*\n */\n") .eof) ()
    sampleStateFile sampleHeaderFile samplePrefix (ascii "/s/7")
  have hbroken := findEndpointState_header_scan
    (faultyOS (.pathError true 2) (ascii "/*\n") (.other 5)) ()
    sampleStateFile sampleHeaderFile samplePrefix (ascii "/s/7")
  refine ⟨?_, ?_, ?_, ?_, ?_⟩
  · have h1 := (hone.2 (.pathError true 2) (by decide) (by decide)).2
      (ascii "/*\n * CILIUM_BASE64_:e30=\n */\n") .eof (by decide)
    have h2 := (h1.1 [ascii "/*\n"] (ascii " * CILIUM_BASE64_:e30=\n") [ascii " */\n"]
      (by decide) (by decide) (by decide)).1 (by decide)
    exact h2.trans (by decide)
  · have h1 := (htwo.2 (.pathError true 2) (by decide) (by decide)).2
      (ascii "/*\n * CILIUM_BASE64_:e30=:e30=\n */\n") .eof (by decide)
    exact (h1.1 [ascii "/*\n"] (ascii " * CILIUM_BASE64_:e30=:e30=\n") [ascii " */\n"]
      (by decide) (by decide) (by decide)).2 (by decide)
  · exact hdenied.1 (.pathError false 13) rfl rfl
  · have h1 := (hnomark.2 (.pathError true 2) rfl rfl).2 (ascii "/*\n */\n") .eof rfl
    exact (h1.2 (by decide) (by decide)).1 rfl
  · have h1 := (hbroken.2 (.pathError true 2) rfl rfl).2 (ascii "/*\n") (.other 5) rfl
    exact (h1.2 (by decide) (by decide)).2 rfl

end Restore
